import Mathlib

/-! A shallow embedding of `tumbleweeds/comm-commands-main.cpp` (comm-commands).

The development models, from the C++ source,

* `AppPipe::_a_write`, the slot through which a pipe endpoint receives the bytes a peer wrote;
* `hasLine`, the guard of the pattern transitions;
* the state-machine builder `Stateful` with its operations `Final`, `Send`, `Delay`, `Expect`
  and the `flush` algorithm;
* the statements of the `Programmer` constructor that set up its builder.

Pointers to `QAbstractState` objects are indices into a list of state objects (`none` is
`nullptr`), `qFatal` and a failed `Q_ASSERT` end a computation with `Res.fatal`, which keeps the
builder as it was at the point of the abort.
-/

set_option autoImplicit false

namespace CommCommands

/-! ## AppPipe -/

/-- The value of `QIODevice::NotOpen`. -/
def NotOpen : Nat := 0
/-- The value of `QIODevice::ReadOnly`. -/
def ReadOnly : Nat := 1
/-- The value of `QIODevice::WriteOnly`. -/
def WriteOnly : Nat := 2
/-- The value of `QIODevice::ReadWrite`. -/
def ReadWrite : Nat := 3

/-- Signals an `AppPipe` emits on receiving data. -/
inductive Signal where
  | hasIncoming (data : List Char)
  | readyRead
  deriving DecidableEq, Repr

/-- An `AppPipe` endpoint: its open mode (a `QIODevice::OpenMode` bit set), the ring buffer
`m_buf` of unread bytes and the signals it has emitted so far, oldest first. -/
structure AppPipe where
  openMode : Nat
  m_buf : List Char
  emitted : List Signal
  deriving DecidableEq, Repr

/-- The C++ conversion of a `bool` to `int`. -/
def boolToInt (b : Bool) : Nat := if b then 1 else 0

/-- The slot `AppPipe::_a_write`. The guard is written `! openMode() & QIODevice::ReadOnly`,
which C++ parses as `(!openMode()) & ReadOnly`: `!openMode()` is true exactly when no mode flag
is set, and that `bool` is then masked with `ReadOnly`. -/
def AppPipe._a_write (p : AppPipe) (data : List Char) : AppPipe :=
  if (boolToInt (p.openMode == 0)) &&& ReadOnly ≠ 0 then p
  else
    { p with
      m_buf := p.m_buf ++ data
      emitted := p.emitted ++ [Signal.hasIncoming data, Signal.readyRead] }

/-! ## hasLine

`hasLine` receives a device that is open for reading. What it can observe of the device is the
queue of unread bytes (for an `AppPipe`: the bytes `QIODevice` has buffered followed by `m_buf`),
so the device is modelled by that queue. -/

/-- The method `canReadLine()`: a newline is queued. -/
def canReadLine (buf : List Char) : Bool := decide ('\n' ∈ buf)

/-- The method `readLine()` with no size limit: takes the bytes up to and including the first
newline (all bytes when there is none) and returns them with the bytes left in the queue. -/
def readLine : List Char → List Char × List Char
  | [] => ([], [])
  | c :: cs => if c = '\n' then ([c], cs) else ((c :: (readLine cs).1), (readLine cs).2)

/-- The method `QByteArray::contains(needle)`: `needle` occurs as a contiguous run of bytes. -/
def contains (line needle : List Char) : Bool := decide (needle <:+: line)

/-- The loop of `hasLine`, with `result` the value of the local variable. Every iteration
removes at least one byte, `fuel` bounds the iterations; `none` means the bound was hit. -/
def hasLineLoop : Nat → List Char → List Char → Bool → Option (Bool × List Char)
  | 0, buf, _, result => if canReadLine buf then none else some (result, buf)
  | fuel + 1, buf, needle, result =>
    if canReadLine buf then
      hasLineLoop fuel (readLine buf).2 needle (result || contains (readLine buf).1 needle)
    else some (result, buf)

/-- The function `hasLine(dev, needle)`: the returned flag and the bytes left queued in `dev`.
The queue length is fuel enough (`hasLineLoop_fuel`). -/
def hasLine (buf needle : List Char) : Option (Bool × List Char) :=
  hasLineLoop buf.length buf needle false

/-! ## The state graph -/

/-- The runtime class of a `QAbstractState`: a `QState` (or a subclass such as `QStateMachine`)
or a `QFinalState`. -/
inductive StateKind where
  | QState
  | QFinalState
  deriving DecidableEq, Repr

/-- A `QTimer` owned by a state. -/
structure QTimer where
  singleShot : Bool
  interval : Int
  deriving DecidableEq, Repr

/-- A slot connected to a state's `entered` or `exited` signal: the lambda writing `data` to the
device `dev`, or `start` / `stop` of the timer with the given index among the state's timers. -/
inductive Action where
  | write (dev : Nat) (data : String)
  | timerStart (timer : Nat)
  | timerStop (timer : Nat)
  deriving DecidableEq, Repr

/-- What fires a transition: `readyRead()` of the device `dev` guarded by `hasLine(dev, needle)`
(a `GuardedSignalTransition`), or `timeout()` of one of the source state's timers. -/
inductive Trigger where
  | readyRead (dev : Option Nat) (needle : String)
  | timeout (timer : Nat)
  deriving DecidableEq, Repr

/-- A transition of a state; `target = none` is a transition without target state. -/
structure Transition where
  trigger : Trigger
  target : Option Nat
  deriving DecidableEq, Repr

/-- A state object: its class, its parent, its `objectName`, the timers it owns, the slots
connected to `entered` and to `exited`, and its transitions, each list in creation order. -/
structure StateObj where
  kind : StateKind
  parent : Option Nat
  objectName : String
  timers : List QTimer
  entered : List Action
  exited : List Action
  transitions : List Transition
  deriving DecidableEq, Repr

/-- The expression `qobject_cast<QState*>(p)` over the objects `heap`. -/
def qobject_cast_QState (heap : List StateObj) (p : Option Nat) : Option Nat :=
  match p with
  | none => none
  | some i =>
    match heap[i]? with
    | some o => if o.kind = StateKind.QState then some i else none
    | none => none

/-! ## Operations and parameters -/

/-- Flag `OpBase::MustBeNew`. -/
def MustBeNew : Nat := 1
/-- Flag `OpBase::NeedsNext`. -/
def NeedsNext : Nat := 2
/-- Flag `OpBase::NeedsFailure`. -/
def NeedsFailure : Nat := 4
/-- Flag `OpBase::IsNew`. -/
def IsNew : Nat := 8
/-- Flag `OpBase::IsFailure`. -/
def IsFailure : Nat := 16

/-- The members the subclasses of `Op` add: `Final`, `Send` (`m_data`), `Delay` (`m_delay`,
`m_dst`), `Expect` (`m_data`, `m_dst`, `m_timeout`, `m_timeoutDst`). -/
inductive OpData where
  | final
  | send (m_data : String)
  | delay (m_delay : Int) (m_dst : Option Nat)
  | expect (m_data : String) (m_dst : Option Nat) (m_timeout : Int) (m_timeoutDst : Option Nat)
  deriving DecidableEq, Repr

/-- An operation: `OpBase::m_flags`, `Op::m_name` and the subclass members. -/
structure Op where
  m_flags : Nat
  m_name : String
  data : OpData
  deriving DecidableEq, Repr

/-- The test `m_flags & OpBase::IsNew`. -/
def Op.isNew (op : Op) : Bool := op.m_flags &&& IsNew != 0

/-- The method `Op::s(name)`. -/
def Op.s (op : Op) (name : String) : Op := { op with m_name := name }

/-- The constructor `Final()`. -/
def Final : Op := ⟨MustBeNew, "", OpData.final⟩

/-- The method `Final::failure()`, declared to return `Final &`. Its body is the one statement
`m_flags |= IsFailure;`, after which control flows off the end of the function without a
`return`: the call has no defined result. The first component is the object after the body has
run, the second the reference the call returns, which there is none of. -/
def Op.failure (op : Op) : Op × Option Op :=
  ({ op with m_flags := op.m_flags ||| IsFailure }, none)

/-- The constructor `Send(data)`. -/
def Send (data : String) : Op := ⟨0, "", OpData.send data⟩

/-- The constructor `Delay(delay, dst)`. -/
def Delay (delay : Int) (dst : Option Nat) : Op := ⟨NeedsNext, "", OpData.delay delay dst⟩

/-- The constructor `Expect(data, dst, timeout, timeoutDst)`. -/
def ExpectTo (data : String) (dst : Option Nat) (timeout : Int) (timeoutDst : Option Nat) : Op :=
  ⟨(if dst.isNone then NeedsNext else 0) |||
      (if timeout ≠ 0 ∧ timeoutDst.isNone then NeedsFailure else 0),
    "", OpData.expect data dst timeout timeoutDst⟩

/-- The constructor `Expect(data, timeout, timeoutDst)`, which delegates with `dst = 0`. -/
def Expect (data : String) (timeout : Int) (timeoutDst : Option Nat) : Op :=
  ExpectTo data none timeout timeoutDst

/-- A `Param`: an `ADevice` holding a (possibly null) device pointer, or an object of another
subclass with the given `m_id`. -/
inductive Param where
  | aDevice (device : Option Nat)
  | other (m_id : Int)
  deriving DecidableEq, Repr

/-- The member `Param::m_id`; `ADevice::id()` is 1. -/
def Param.m_id : Param → Int
  | Param.aDevice _ => 1
  | Param.other i => i

/-- The constructor `ADevice(device)`. -/
def ADevice (device : Option Nat) : Param := Param.aDevice device

/-! ## Stateful -/

/-- The struct `Stateful::Level`. -/
structure Level where
  cur : Option Nat
  next : Option Nat
  failure : Option Nat
  deriving DecidableEq, Repr

/-- The builder. The constructor pushes two levels onto `m_levels` and nothing pushes or pops a
level afterwards, so the stack is kept as its two entries: `parentLevel` is `*(m_levels.end()-2)`
and `topLevel` is `m_levels.top()`. `m_params` is the map as a list of bindings (first match
wins), `m_ops` the stack of pending operations with its top first. `heap` holds the state
objects the builder's pointers refer to. `made` records, oldest first, the operations whose
`make` has been entered; nothing reads it. -/
structure Stateful where
  m_params : List (Int × Param)
  parentLevel : Level
  topLevel : Level
  m_ops : List Op
  heap : List StateObj
  made : List Op
  deriving DecidableEq, Repr

/-- The outcome of a builder method: normal return with a value and the builder after the call,
or a fatal abort (`qFatal`, failed `Q_ASSERT`) with its message and the builder at that point.
`outOfFuel` is produced only by `flushLoop` when its iteration bound is hit. -/
inductive Res (α : Type) where
  | ok (a : α) (s : Stateful)
  | fatal (msg : String) (s : Stateful)
  | outOfFuel
  deriving DecidableEq, Repr

/-- The constructor `Stateful(parent)` over the existing state objects `heap`. -/
def Stateful.new (heap : List StateObj) (parent : Option Nat) : Stateful :=
  { m_params := []
    parentLevel := ⟨parent, none, none⟩
    topLevel := ⟨none, none, none⟩
    m_ops := []
    heap := heap
    made := [] }

/-- The operator `s * param`: `m_params[param.m_id] = param`. -/
def Stateful.setParam (s : Stateful) (param : Param) : Stateful :=
  { s with m_params := (param.m_id, param) :: s.m_params.filter (fun b => b.1 != param.m_id) }

/-- The method `param(id)`. -/
def Stateful.param (s : Stateful) (id : Int) : Option Param := s.m_params.lookup id

/-- The method `param<ADevice>()`: the `dynamic_cast` of the binding of `ADevice::id()`; the
result is the parameter's `device` member. -/
def Stateful.paramADevice (s : Stateful) : Option (Option Nat) :=
  match s.param 1 with
  | some (Param.aDevice d) => some d
  | _ => none

/-- The operator `s + op`: pushes a copy of `op` flagged `IsNew`. -/
def Stateful.add (s : Stateful) (op : Op) : Stateful :=
  { s with m_ops := { op with m_flags := op.m_flags ||| IsNew } :: s.m_ops }

/-- The operator `s | op`: pushes a copy of `op`. -/
def Stateful.or (s : Stateful) (op : Op) : Stateful :=
  { s with m_ops := op :: s.m_ops }

/-- The method `parent()`. -/
def Stateful.parent (s : Stateful) : Res Nat :=
  match qobject_cast_QState s.heap s.parentLevel.cur with
  | some q => Res.ok q s
  | none => Res.fatal "Stateful: Parent state must be a QState." s

/-- The method `newState<T>()`: `top().cur = new T(parent())`. -/
def Stateful.newState (kind : StateKind) (s : Stateful) : Res Nat :=
  match s.parent with
  | Res.ok q s1 =>
    Res.ok s1.heap.length
      { s1 with
        heap := s1.heap ++ [⟨kind, some q, "", [], [], [], []⟩]
        topLevel := { s1.topLevel with cur := some s1.heap.length } }
  | Res.fatal msg s1 => Res.fatal msg s1
  | Res.outOfFuel => Res.outOfFuel

/-- The method `aState()`. -/
def Stateful.aState (s : Stateful) : Res Nat :=
  match s.topLevel.cur with
  | some c => Res.ok c s
  | none => s.newState StateKind.QState

/-- The method `state()`. -/
def Stateful.state (s : Stateful) : Res Nat :=
  match s.aState with
  | Res.ok c s1 =>
    match qobject_cast_QState s1.heap (some c) with
    | some q => Res.ok q s1
    | none => Res.fatal "Stateful: Source state must be a QState." s1
  | Res.fatal msg s1 => Res.fatal msg s1
  | Res.outOfFuel => Res.outOfFuel

/-- The method `next()`. -/
def Stateful.next (s : Stateful) : Option Nat := s.topLevel.next

/-- The method `failure()`. -/
def Stateful.failure (s : Stateful) : Option Nat := s.topLevel.failure

/-- Applies `f` to the state object `q` points to. -/
def Stateful.onState (s : Stateful) (q : Nat) (f : StateObj → StateObj) : Stateful :=
  { s with heap := s.heap.modify f q }

/-- The call `q->setObjectName(name)`. -/
def setObjectName (name : String) (o : StateObj) : StateObj := { o with objectName := name }

/-- The call `QObject::connect(q, &QState::entered, dev, f)` where the lambda `f` calls
`dev->write(data)`; `connect` makes no connection when the context object `dev` is null. -/
def connectWrite (dev : Option Nat) (data : String) (o : StateObj) : StateObj :=
  match dev with
  | some d => { o with entered := o.entered ++ [Action.write d data] }
  | none => o

/-- The template `addTransition(src, target, sender, signal, f)` with the guard `hasLine(dev,
data)`: a new `GuardedSignalTransition` whose target is `target` (none when `target` is null),
added to `src`. -/
def addGuardedTransition (target dev : Option Nat) (data : String) (o : StateObj) : StateObj :=
  { o with transitions := o.transitions ++ [⟨Trigger.readyRead dev data, target⟩] }

/-- The timer set-up shared by `Delay::make` and the free function `delay`: a new single-shot
`QTimer` child of the state with interval `ms`, started on `entered`, stopped on `exited`, and
`addTransition(timer, SIGNAL(timeout()), dst)`; this overload of `QState::addTransition` adds
nothing when `dst` is null. -/
def addTimer (ms : Int) (dst : Option Nat) (o : StateObj) : StateObj :=
  { o with
    timers := o.timers ++ [⟨true, ms⟩]
    entered := o.entered ++ [Action.timerStart o.timers.length]
    exited := o.exited ++ [Action.timerStop o.timers.length]
    transitions :=
      match dst with
      | some d => o.transitions ++ [⟨Trigger.timeout o.timers.length, some d⟩]
      | none => o.transitions }

/-- The free function `delay(src, ms, dst)`. -/
def delay (heap : List StateObj) (src : Nat) (ms : Int) (dst : Option Nat) : List StateObj :=
  heap.modify (addTimer ms dst) src

/-- The free function `expect(src, dev, data, dst, timeout, dstTimeout)`. -/
def expect (heap : List StateObj) (src : Nat) (dev : Option Nat) (data : String)
    (dst : Option Nat) (timeout : Int) (dstTimeout : Option Nat) : List StateObj :=
  let heap1 := heap.modify (addGuardedTransition dst dev data) src
  if timeout ≠ 0 then delay heap1 src timeout dstTimeout else heap1

/-- The method `Op::make` of the base template: names the current state when `m_name` is not
empty. -/
def Op.makeBase (op : Op) (s : Stateful) : Res Unit :=
  if op.m_name ≠ "" then
    match s.aState with
    | Res.ok c s1 => Res.ok () (s1.onState c (setObjectName op.m_name))
    | Res.fatal msg s1 => Res.fatal msg s1
    | Res.outOfFuel => Res.outOfFuel
  else Res.ok () s

/-- The body of `Send::make` after `Op::make(s)`. -/
def makeSend (data : String) (s : Stateful) : Res Unit :=
  match s.paramADevice with
  | none => Res.fatal "ASSERT: \"p\"" s
  | some dev =>
    match s.state with
    | Res.ok q s1 => Res.ok () (s1.onState q (connectWrite dev data))
    | Res.fatal msg s1 => Res.fatal msg s1
    | Res.outOfFuel => Res.outOfFuel

/-- The body of `Delay::make` after `Op::make(s)`. The source evaluates `s.state()` four times;
every call after the first returns the same state and changes nothing (`state_again`). -/
def makeDelay (m_delay : Int) (m_dst : Option Nat) (s : Stateful) : Res Unit :=
  match (if m_dst.isNone then s.next else m_dst) with
  | none => Res.fatal "Delay: No destination state" s
  | some dst =>
    match s.state with
    | Res.ok q s1 => Res.ok () (s1.onState q (addTimer m_delay (some dst)))
    | Res.fatal msg s1 => Res.fatal msg s1
    | Res.outOfFuel => Res.outOfFuel

/-- The body of `Expect::make` after `Op::make(s)`. After the guarded transition the source
resolves `m_timeoutDst` from `s.failure()` when `m_timeout` is set and returns: the statement
`s | Delay(m_timeout, m_timeoutDst)` is commented out, and the resolved member of the copy being
built is not read again. -/
def makeExpect (m_data : String) (m_dst : Option Nat) (s : Stateful) : Res Unit :=
  match s.paramADevice with
  | none => Res.fatal "ASSERT: \"p\"" s
  | some dev =>
    match s.state with
    | Res.ok q s1 =>
      Res.ok ()
        (s1.onState q (addGuardedTransition (if m_dst.isNone then s.next else m_dst) dev m_data))
    | Res.fatal msg s1 => Res.fatal msg s1
    | Res.outOfFuel => Res.outOfFuel

/-- The virtual method `make(s)`, dispatched on the class of the operation. -/
def Op.make (op : Op) (s0 : Stateful) : Res Unit :=
  let s := { s0 with made := s0.made ++ [op] }
  match op.data with
  | OpData.final =>
    match s.newState StateKind.QFinalState with
    | Res.ok _ s1 => op.makeBase s1
    | Res.fatal msg s1 => Res.fatal msg s1
    | Res.outOfFuel => Res.outOfFuel
  | OpData.send m_data =>
    match op.makeBase s with
    | Res.ok _ s1 => makeSend m_data s1
    | Res.fatal msg s1 => Res.fatal msg s1
    | Res.outOfFuel => Res.outOfFuel
  | OpData.delay m_delay m_dst =>
    match op.makeBase s with
    | Res.ok _ s1 => makeDelay m_delay m_dst s1
    | Res.fatal msg s1 => Res.fatal msg s1
    | Res.outOfFuel => Res.outOfFuel
  | OpData.expect m_data m_dst _ _ =>
    match op.makeBase s with
    | Res.ok _ s1 => makeExpect m_data m_dst s1
    | Res.fatal msg s1 => Res.fatal msg s1
    | Res.outOfFuel => Res.outOfFuel

/-- The scan of `flush`: `n`, the number of operations above the one `it` stops at, which is
the topmost operation flagged `IsNew`, or the bottom of the stack when none is flagged. The
stack is not empty. -/
def scanN : List Op → Nat
  | [] => 0
  | [_] => 0
  | op :: below :: rest => if op.isNew then 0 else scanN (below :: rest) + 1

/-- The loop `while (n--)` of `flush`, whose body is `auto op = m_ops.pop(); op->make(*this);`.
`QStack::pop` asserts that the stack is not empty. -/
def popMake : Nat → Stateful → Res Unit
  | 0, s => Res.ok () s
  | n + 1, s =>
    match s.m_ops with
    | [] => Res.fatal "ASSERT: \"!isEmpty()\"" s
    | op :: rest =>
      match op.make { s with m_ops := rest } with
      | Res.ok _ s1 => popMake n s1
      | Res.fatal msg s1 => Res.fatal msg s1
      | Res.outOfFuel => Res.outOfFuel

/-- One iteration of the outer loop of `flush`, entered with a non-empty `m_ops`. `Q_ASSERT` is
taken as active (a debug build): a failed assertion aborts like `qFatal`. -/
def flushGroup (s : Stateful) : Res Unit :=
  let n := scanN s.m_ops
  match s.m_ops[n]? with
  | none => Res.fatal "ASSERT: \"!isEmpty()\"" s
  | some it =>
    match it.make { s with topLevel := { s.topLevel with cur := none } } with
    | Res.ok _ s1 =>
      let successor := s1.topLevel.cur
      match popMake n s1 with
      | Res.ok _ s2 =>
        let s3 := { s2 with m_ops := s2.m_ops.tail }
        match s3.aState with
        | Res.ok c s4 =>
          if successor = some c then
            Res.ok () { s4 with topLevel := { s4.topLevel with next := s4.topLevel.cur } }
          else Res.fatal "ASSERT: \"successor == aState()\"" s4
        | Res.fatal msg s4 => Res.fatal msg s4
        | Res.outOfFuel => Res.outOfFuel
      | Res.fatal msg s2 => Res.fatal msg s2
      | Res.outOfFuel => Res.outOfFuel
    | Res.fatal msg s1 => Res.fatal msg s1
    | Res.outOfFuel => Res.outOfFuel

/-- The outer loop of `flush`, bounded by `fuel` iterations. -/
def flushLoop : Nat → Stateful → Res Unit
  | 0, s => if s.m_ops.isEmpty then Res.ok () s else Res.outOfFuel
  | fuel + 1, s =>
    if s.m_ops.isEmpty then Res.ok () s
    else
      match flushGroup s with
      | Res.ok _ s1 => flushLoop fuel s1
      | Res.fatal msg s1 => Res.fatal msg s1
      | Res.outOfFuel => Res.outOfFuel

/-- The method `flush()`. Every iteration pops at least one operation, so the number of pending
operations is fuel enough (`flush_fuel`). -/
def Stateful.flush (s : Stateful) : Res Unit := flushLoop s.m_ops.length s

/-! ## The Programmer script -/

/-- A freshly constructed state object of class `kind` with the given parent. -/
def StateObj.fresh (kind : StateKind) (parent : Option Nat) : StateObj :=
  ⟨kind, parent, "", [], [], [], []⟩

/-- The state objects of a `Programmer` before its constructor body runs: the machine `m_mach`
(object 0) and the member states `s_boot`, `s_send`, `s_ok`, `s_failed` (objects 1 to 4), which
are children of the machine and are given no object name. -/
def programmerHeap : List StateObj :=
  [ StateObj.fresh StateKind.QState none,
    StateObj.fresh StateKind.QState (some 0),
    StateObj.fresh StateKind.QState (some 0),
    StateObj.fresh StateKind.QFinalState (some 0),
    StateObj.fresh StateKind.QFinalState (some 0) ]

/-- The builder of the `Programmer` constructor after the statements up to
`s + Final () .s("s_ok");`, which all have a defined result; the device `m_port` is device 0. -/
def programmerPrefix : Stateful :=
  ((((((Stateful.new programmerHeap (some 0)).setParam (ADevice (some 0))).add
    ((Send "boot\n").s "s_boot")).or
    (Expect "boot successful" 1000 none)).add
    ((Send "HULLOTHERE\n:00000001FF\n").s "s_send")).or
    (Expect "load successful" 1000 none)).add
    (Final.s "s_ok")

/-- The builder of the `Programmer` constructor right before `s.flush()`, if the constructor
gets there: the last statement, `s + Final ().failure() .s("s_failed");`, calls `s` on the
reference `failure()` returns. -/
def programmerScript : Option Stateful :=
  match (Op.failure Final).2 with
  | some f => some (programmerPrefix.add (f.s "s_failed"))
  | none => none

/-- The states the builder has created on top of the `base` objects that existed before, with
their pointers. -/
def createdStates (base : Nat) (s : Stateful) : List (Nat × StateObj) :=
  ((List.range s.heap.length).zip s.heap).drop base

/-- The transitions of all state objects as (source, transition) pairs. -/
def allTransitions (heap : List StateObj) : List (Nat × Transition) :=
  ((List.range heap.length).zip heap).flatMap (fun e => e.2.transitions.map (fun t => (e.1, t)))

/-- The builder a method returned normally with, if it did. -/
def Res.built {α : Type} : Res α → Option Stateful
  | Res.ok _ s => some s
  | _ => none

/-- The builder at the point where a method aborted with a fatal error, if it did. -/
def Res.aborted {α : Type} : Res α → Option Stateful
  | Res.fatal _ s => some s
  | _ => none

/-- A builder over the `Programmer` objects with the channel parameter set and nothing
pending. -/
def deviceBuilder : Stateful :=
  (Stateful.new programmerHeap (some 0)).setParam (ADevice (some 0))

/-- A builder over the `Programmer` objects with no parameter set and nothing pending. -/
def bareBuilder : Stateful := Stateful.new programmerHeap (some 0)

/-! ## Notions used in the statements and proofs -/

/-- The operation is a `Send`. -/
def Op.isSend (op : Op) : Bool :=
  match op.data with
  | OpData.send _ => true
  | _ => false

/-- The operation is an `Expect`. -/
def Op.isExpect (op : Op) : Bool :=
  match op.data with
  | OpData.expect _ _ _ _ => true
  | _ => false

/-- The operation is an `Expect` constructed without an explicit destination, whose transition
goes to `next()`. -/
def Op.lacksDst (op : Op) : Bool :=
  match op.data with
  | OpData.expect _ none _ _ => true
  | _ => false

/-- Splits a stack of operations (top first) into flush groups, `acc` being the operations
already passed of the group under way: a group ends with the first operation flagged `IsNew`,
and the operations left at the bottom form a last group. -/
def groupsFrom (acc : List Op) : List Op → List (List Op)
  | [] => if acc.isEmpty then [] else [acc]
  | op :: rest =>
    if op.isNew then (acc ++ [op]) :: groupsFrom [] rest else groupsFrom (acc ++ [op]) rest

/-- The flush groups of a stack of pending operations, topmost group first, each with its top
operation first (so its `IsNew` operation last). -/
def groups (ops : List Op) : List (List Op) := groupsFrom [] ops

/-- Every object of `h` is still in `h'`, with its class and with at least its transitions. -/
def HeapMono (h h' : List StateObj) : Prop :=
  ∀ (i : Nat) (o : StateObj), h[i]? = some o →
    ∃ o' : StateObj, h'[i]? = some o' ∧ o'.kind = o.kind ∧
      ∀ t ∈ o.transitions, t ∈ o'.transitions

/-- What a builder method that returns normally leaves alone: the pending stack, the parameters,
the parent level, `next`, `failure` and the record of `make` calls are unchanged, state objects
only gain transitions, and either the current state and the number of objects are unchanged,
or there was no current state and the one new object is current. -/
structure Step (s s' : Stateful) : Prop where
  ops : s'.m_ops = s.m_ops
  params : s'.m_params = s.m_params
  parentLevel : s'.parentLevel = s.parentLevel
  next : s'.topLevel.next = s.topLevel.next
  failure : s'.topLevel.failure = s.topLevel.failure
  made : s'.made = s.made
  mono : HeapMono s.heap s'.heap
  cur : (s'.topLevel.cur = s.topLevel.cur ∧ s'.heap.length = s.heap.length) ∨
    (s.topLevel.cur = none ∧ s'.topLevel.cur = some s.heap.length ∧
      s'.heap.length = s.heap.length + 1)

/-- What a normally returning `op.make` does to the builder: it leaves what `Step` leaves alone
except that the call is recorded; afterwards there is a current state, which is the one from
before (no object is created, and `op` is not a `Final`) or the one object the call created
(there was no current state, or `op` is a `Final`); a `Final` creates a `QFinalState`; a `Delay`,
or an `Expect` that has an explicit destination or finds `next` set, leaves the current state
with a transition that has a target; a `Send` or an `Expect` found the channel parameter. -/
structure MakeOk (op : Op) (s s' : Stateful) : Prop where
  ops : s'.m_ops = s.m_ops
  params : s'.m_params = s.m_params
  parentLevel : s'.parentLevel = s.parentLevel
  next : s'.topLevel.next = s.topLevel.next
  failure : s'.topLevel.failure = s.topLevel.failure
  made : s'.made = s.made ++ [op]
  mono : HeapMono s.heap s'.heap
  cur : ∃ c : Nat, s'.topLevel.cur = some c ∧
    ((s.topLevel.cur = some c ∧ s'.heap.length = s.heap.length ∧ op.data ≠ OpData.final) ∨
      (c = s.heap.length ∧ s'.heap.length = s.heap.length + 1 ∧
        (s.topLevel.cur = none ∨ op.data = OpData.final)))
  final : op.data = OpData.final →
    ∃ o : StateObj, s'.heap[s.heap.length]? = some o ∧ o.kind = StateKind.QFinalState
  waits : op.isSend = false → op.data ≠ OpData.final →
    (op.lacksDst = false ∨ s.topLevel.next ≠ none) →
    ∃ (c : Nat) (o : StateObj), s'.topLevel.cur = some c ∧ s'.heap[c]? = some o ∧
      ∃ t ∈ o.transitions, t.target ≠ none
  dev : op.isSend = true ∨ op.isExpect = true → s.paramADevice ≠ none

/-- What a normally returning `popMake n` does to a builder `s` that has a current state: the
`n` topmost operations are popped and recorded as made, in that order; either the current state
is the same, no object was created, none of the `n` operations is a `Final` and the state has a
transition with a target if one of them is not a `Send` and has an explicit destination or
finds `next` set, or the current state is an object created by the call. -/
structure PopOk (n : Nat) (s s' : Stateful) : Prop where
  ops : s'.m_ops = s.m_ops.drop n
  params : s'.m_params = s.m_params
  parentLevel : s'.parentLevel = s.parentLevel
  next : s'.topLevel.next = s.topLevel.next
  failure : s'.topLevel.failure = s.topLevel.failure
  made : s'.made = s.made ++ s.m_ops.take n
  mono : HeapMono s.heap s'.heap
  dev : (∃ op ∈ s.m_ops.take n, op.isSend = true ∨ op.isExpect = true) → s.paramADevice ≠ none
  cur : ∀ c : Nat, s.topLevel.cur = some c →
    (s'.topLevel.cur = some c ∧ s'.heap.length = s.heap.length ∧
      (∀ op ∈ s.m_ops.take n, op.data ≠ OpData.final) ∧
      ((∃ op ∈ s.m_ops.take n, op.isSend = false ∧
          (op.lacksDst = false ∨ s.topLevel.next ≠ none)) →
        ∃ o : StateObj, s'.heap[c]? = some o ∧ ∃ t ∈ o.transitions, t.target ≠ none)) ∨
    (∃ c' : Nat, s'.topLevel.cur = some c' ∧ s.heap.length ≤ c')

/-- What a normally returning iteration of `flush` does to the builder: the topmost group is
popped and recorded as made, its `IsNew` operation first and then the others from the top of
the stack down; exactly one object is created, which is the current state and the new `next`;
it is a `QFinalState` or has a transition with a target if some operation of the group is not
a `Send` and has an explicit destination or finds `next` set; a group with a `Send` or an
`Expect` found the channel parameter. -/
structure GroupOk (s s' : Stateful) : Prop where
  ops : s'.m_ops = s.m_ops.drop (scanN s.m_ops + 1)
  params : s'.m_params = s.m_params
  parentLevel : s'.parentLevel = s.parentLevel
  failure : s'.topLevel.failure = s.topLevel.failure
  made : ∃ it : Op, s.m_ops[scanN s.m_ops]? = some it ∧
    s'.made = s.made ++ it :: s.m_ops.take (scanN s.m_ops)
  mono : HeapMono s.heap s'.heap
  len : s'.heap.length = s.heap.length + 1
  cur : s'.topLevel.cur = some s.heap.length
  next : s'.topLevel.next = some s.heap.length
  dev : (∃ op ∈ s.m_ops.take (scanN s.m_ops + 1), op.isSend = true ∨ op.isExpect = true) →
    s.paramADevice ≠ none
  wired : (∃ op ∈ s.m_ops.take (scanN s.m_ops + 1), op.isSend = false ∧
      (op.lacksDst = false ∨ s.topLevel.next ≠ none)) →
    ∃ o : StateObj, s'.heap[s.heap.length]? = some o ∧
      (o.kind = StateKind.QFinalState ∨ ∃ t ∈ o.transitions, t.target ≠ none)

/-- The builder after a flush of `programmerPrefix`. -/
def programmerBuilt : Stateful := programmerPrefix.flush.built.getD programmerPrefix

/-- The state object named `s_send` that a flush of `programmerPrefix` builds. -/
def sendState : StateObj :=
  ⟨StateKind.QState, some 0, "s_send", [], [Action.write 0 "HULLOTHERE\n:00000001FF\n"], [],
    [⟨Trigger.readyRead (some 0) "load successful", some 5⟩]⟩

/-- The builder at the end of a method, whether it returned normally or aborted. -/
def Res.final {α : Type} : Res α → Option Stateful
  | Res.ok _ s => some s
  | Res.fatal _ s => some s
  | Res.outOfFuel => none

/-! ## Theorems -/
/-! ### hasLine -/

theorem readLine_append (buf : List Char) : (readLine buf).1 ++ (readLine buf).2 = buf := by
  induction buf with
  | nil => rfl
  | cons c cs ih =>
    unfold readLine
    split <;> simp_all

theorem readLine_line (buf : List Char) (h : '\n' ∈ buf) :
    ∃ body, (readLine buf).1 = body ++ ['\n'] ∧ '\n' ∉ body := by
  induction buf with
  | nil => simp at h
  | cons c cs ih =>
    unfold readLine
    by_cases hc : c = '\n'
    · exact ⟨[], by simp [hc]⟩
    · have h' : '\n' ∈ cs := by
        rcases List.mem_cons.1 h with h | h
        · exact absurd h.symm hc
        · exact h
      obtain ⟨body, hb, hn⟩ := ih h'
      refine ⟨c :: body, by simp [hc, hb], ?_⟩
      simp [hn, Ne.symm hc]

theorem readLine_length (buf : List Char) (h : '\n' ∈ buf) :
    (readLine buf).2.length < buf.length := by
  have h1 := congrArg List.length (readLine_append buf)
  obtain ⟨body, hb, _⟩ := readLine_line buf h
  rw [List.length_append, hb] at h1
  simp at h1
  omega

/-- With fuel at least the queue length the loop of `hasLine` ends: it has read the complete
lines `lines`, left `rest` queued, and or-ed into `result` whether some line contains the
needle. -/
theorem hasLineLoop_fuel (needle : List Char) :
    ∀ (fuel : Nat) (buf : List Char) (result : Bool), buf.length ≤ fuel →
      ∃ (lines : List (List Char)) (rest : List Char), buf = lines.flatten ++ rest ∧
        (∀ l ∈ lines, ∃ body, l = body ++ ['\n'] ∧ '\n' ∉ body) ∧ '\n' ∉ rest ∧
        hasLineLoop fuel buf needle result
          = some (result || decide (∃ l ∈ lines, needle <:+: l), rest) := by
  intro fuel
  induction fuel with
  | zero =>
    intro buf result h
    have hb : buf = [] := List.eq_nil_of_length_eq_zero (Nat.le_zero.1 h)
    subst hb
    exact ⟨[], [], by simp [hasLineLoop, canReadLine]⟩
  | succ n ih =>
    intro buf result h
    by_cases hc : '\n' ∈ buf
    · have hlen := readLine_length buf hc
      obtain ⟨lines, rest, h1, h2, h3, h4⟩ :=
        ih (readLine buf).2 (result || contains (readLine buf).1 needle) (by omega)
      refine ⟨(readLine buf).1 :: lines, rest, ?_, ?_, h3, ?_⟩
      · rw [List.flatten_cons, List.append_assoc, ← h1, readLine_append]
      · intro l hl
        rcases List.mem_cons.1 hl with hl | hl
        · subst hl; exact readLine_line buf hc
        · exact h2 l hl
      · have h5 : hasLineLoop (n + 1) buf needle result
            = hasLineLoop n (readLine buf).2 needle (result || contains (readLine buf).1 needle) := by
          simp [hasLineLoop, canReadLine, hc]
        rw [h5, h4]
        simp [contains, Bool.or_assoc]
    · exact ⟨[], buf, by simp [hasLineLoop, canReadLine, hc]⟩

theorem readLine_of_line (body tl : List Char) (h : '\n' ∉ body) :
    readLine (body ++ '\n' :: tl) = (body ++ ['\n'], tl) := by
  induction body with
  | nil => simp [readLine]
  | cons c cs ih =>
    have hc : c ≠ '\n' := fun e => h (by simp [e])
    have hcs : '\n' ∉ cs := fun e => h (by simp [e])
    simp [readLine, hc, ih hcs]

/-- On a queue made of the complete lines `lines` followed by a newline-free `rest`, the loop of
`hasLine` reads exactly the lines and leaves `rest`. -/
theorem hasLineLoop_lines (needle : List Char) :
    ∀ (lines : List (List Char)) (rest : List Char) (fuel : Nat) (result : Bool),
      (∀ l ∈ lines, ∃ body, l = body ++ ['\n'] ∧ '\n' ∉ body) → '\n' ∉ rest →
      (lines.flatten ++ rest).length ≤ fuel →
      hasLineLoop fuel (lines.flatten ++ rest) needle result
        = some (result || decide (∃ l ∈ lines, needle <:+: l), rest) := by
  intro lines
  induction lines with
  | nil =>
    intro rest fuel result _ hr _
    cases fuel <;> simp [hasLineLoop, canReadLine, hr]
  | cons l ls ih =>
    intro rest fuel result hl hr hf
    obtain ⟨body, hb, hn⟩ := hl l (by simp)
    have hbuf : (l :: ls).flatten ++ rest = body ++ '\n' :: (ls.flatten ++ rest) := by
      simp [hb]
    rw [hbuf] at hf ⊢
    cases fuel with
    | zero => simp at hf
    | succ f =>
      have hcan : canReadLine (body ++ '\n' :: (ls.flatten ++ rest)) = true := by
        simp [canReadLine]
      rw [hasLineLoop, if_pos hcan, readLine_of_line body _ hn]
      simp only
      rw [ih rest f _ (fun l' hl' => hl l' (by simp [hl'])) hr (by simp at hf ⊢; omega)]
      simp [contains, hb, Bool.or_assoc]

/-- C6: for every queue content `buf` and every needle, `hasLine` returns. The queue is the
concatenation of complete lines (each a newline-free body followed by its newline) and a
newline-free remainder, and however it is written so, as `lines` followed by `rest`, the
returned flag is true if and only if one of the complete lines contains the needle, and the
remainder, the bytes after the last newline, is left queued and takes no part in the result. -/
theorem hasLine_iff_complete_line (buf needle : List Char) :
    (∃ (lines : List (List Char)) (rest : List Char), buf = lines.flatten ++ rest ∧
      (∀ l ∈ lines, ∃ body, l = body ++ ['\n'] ∧ '\n' ∉ body) ∧ '\n' ∉ rest) ∧
    ∀ (lines : List (List Char)) (rest : List Char), buf = lines.flatten ++ rest →
      (∀ l ∈ lines, ∃ body, l = body ++ ['\n'] ∧ '\n' ∉ body) → '\n' ∉ rest →
      hasLine buf needle = some (decide (∃ l ∈ lines, needle <:+: l), rest) := by
  constructor
  · obtain ⟨lines, rest, h1, h2, h3, _⟩ := hasLineLoop_fuel needle buf.length buf false le_rfl
    exact ⟨lines, rest, h1, h2, h3⟩
  · intro lines rest hb hl hr
    subst hb
    have := hasLineLoop_lines needle lines rest _ false hl hr le_rfl
    simpa [hasLine] using this

/-- C6, at the queue "boot\nfoo\nbar" and the needle "foo": the complete lines are "boot\n" and
"foo\n", the flag is true and "bar" is left queued. -/
theorem hasLine_iff_complete_line_witness :
    "boot\nfoo\nbar".toList = ["boot\n".toList, "foo\n".toList].flatten ++ "bar".toList ∧
    (∀ l ∈ ["boot\n".toList, "foo\n".toList], ∃ body, l = body ++ ['\n'] ∧ '\n' ∉ body) ∧
    '\n' ∉ "bar".toList ∧
    hasLine "boot\nfoo\nbar".toList "foo".toList
      = some (decide (∃ l ∈ ["boot\n".toList, "foo\n".toList], "foo".toList <:+: l),
          "bar".toList) ∧
    hasLine "boot\nfoo\nbar".toList "foo".toList = some (true, "bar".toList) :=
  have hl : ∀ l ∈ ["boot\n".toList, "foo\n".toList], ∃ body, l = body ++ ['\n'] ∧ '\n' ∉ body := by
    intro l h
    simp only [List.mem_cons, List.mem_singleton, List.not_mem_nil, or_false] at h
    rcases h with h | h
    · exact ⟨"boot".toList, by rw [h]; decide, by decide⟩
    · exact ⟨"foo".toList, by rw [h]; decide, by decide⟩
  ⟨by decide, hl, by decide,
    (hasLine_iff_complete_line "boot\nfoo\nbar".toList "foo".toList).2
      ["boot\n".toList, "foo\n".toList] "bar".toList (by decide) hl (by decide),
    by decide⟩

theorem hasLine_no_newline (rest needle : List Char) (h : '\n' ∉ rest) :
    hasLine rest needle = some (false, rest) := by
  unfold hasLine
  cases hr : rest.length <;> simp [hasLineLoop, canReadLine, h]

/-- C7: for every queue content and needle, `hasLine` returns and leaves no complete line
queued, so an immediately following call returns false for every needle and changes nothing.
On the queue "boot\nfoo\n" the check for "boot" is true and empties the queue, and the
following check for "foo" is false. -/
theorem hasLine_drains (buf needle : List Char) :
    (∃ (b : Bool) (rest : List Char), hasLine buf needle = some (b, rest) ∧
      canReadLine rest = false ∧
      ∀ needle2, hasLine rest needle2 = some (false, rest)) ∧
    hasLine "boot\nfoo\n".toList "boot".toList = some (true, []) ∧
    hasLine [] "foo".toList = some (false, []) := by
  refine ⟨?_, by decide, by decide⟩
  obtain ⟨lines, rest, _, _, h3, h4⟩ := hasLineLoop_fuel needle buf.length buf false le_rfl
  exact ⟨_, rest, by simpa [hasLine] using h4, by simp [canReadLine, h3],
    fun n2 => hasLine_no_newline rest n2 h3⟩

/-! ### Frame properties of the builder methods -/

theorem heapMono_refl (h : List StateObj) : HeapMono h h :=
  fun _ o ho => ⟨o, ho, rfl, fun _ ht => ht⟩

theorem heapMono_trans {h1 h2 h3 : List StateObj} (a : HeapMono h1 h2) (b : HeapMono h2 h3) :
    HeapMono h1 h3 := by
  intro i o ho
  obtain ⟨o2, h2o, k2, t2⟩ := a i o ho
  obtain ⟨o3, h3o, k3, t3⟩ := b i o2 h2o
  exact ⟨o3, h3o, k3.trans k2, fun t ht => t3 t (t2 t ht)⟩

theorem heapMono_append (h l : List StateObj) : HeapMono h (h ++ l) := by
  intro i o ho
  refine ⟨o, ?_, rfl, fun _ ht => ht⟩
  have hi : i < h.length := by
    by_contra hn
    rw [List.getElem?_eq_none (by omega)] at ho
    exact Option.noConfusion ho
  rw [List.getElem?_append_left hi]
  exact ho

theorem heapMono_modify (h : List StateObj) (f : StateObj → StateObj) (q : Nat)
    (hk : ∀ o, (f o).kind = o.kind) (ht : ∀ o t, t ∈ o.transitions → t ∈ (f o).transitions) :
    HeapMono h (h.modify f q) := by
  intro i o ho
  rw [List.getElem?_modify, ho]
  by_cases hq : q = i
  · exact ⟨f o, by simp [hq], hk o, ht o⟩
  · exact ⟨o, by simp [hq], rfl, fun _ h => h⟩

theorem step_refl (s : Stateful) : Step s s :=
  ⟨rfl, rfl, rfl, rfl, rfl, rfl, heapMono_refl _, Or.inl ⟨rfl, rfl⟩⟩

theorem step_trans {s1 s2 s3 : Stateful} (a : Step s1 s2) (b : Step s2 s3) : Step s1 s3 := by
  refine ⟨b.ops.trans a.ops, b.params.trans a.params, b.parentLevel.trans a.parentLevel,
    b.next.trans a.next, b.failure.trans a.failure, b.made.trans a.made, heapMono_trans a.mono b.mono, ?_⟩
  rcases a.cur with ⟨ac, al⟩ | ⟨an, ac, al⟩
  · rcases b.cur with ⟨bc, bl⟩ | ⟨bn, bc, bl⟩
    · exact Or.inl ⟨bc.trans ac, bl.trans al⟩
    · exact Or.inr ⟨ac ▸ bn, al ▸ bc, by omega⟩
  · rcases b.cur with ⟨bc, bl⟩ | ⟨bn, bc, bl⟩
    · exact Or.inr ⟨an, bc.trans ac, by omega⟩
    · rw [ac] at bn; exact Option.noConfusion bn

theorem step_onState (s : Stateful) (q : Nat) (f : StateObj → StateObj)
    (hk : ∀ o, (f o).kind = o.kind) (ht : ∀ o t, t ∈ o.transitions → t ∈ (f o).transitions) :
    Step s (s.onState q f) :=
  ⟨rfl, rfl, rfl, rfl, rfl, rfl, heapMono_modify _ f q hk ht,
    Or.inl ⟨rfl, by simp [Stateful.onState]⟩⟩

theorem parent_ok {s s' : Stateful} {q : Nat} (h : s.parent = Res.ok q s') : s' = s := by
  unfold Stateful.parent at h
  split at h
  · injection h with _ h2; exact h2.symm
  · exact Res.noConfusion h

theorem parent_fuel (s : Stateful) : s.parent ≠ Res.outOfFuel := by
  unfold Stateful.parent
  split <;> exact fun h => Res.noConfusion h

theorem newState_ok {s s' : Stateful} {kind : StateKind} {c : Nat}
    (h : s.newState kind = Res.ok c s') :
    c = s.heap.length ∧ ∃ q, s' =
      { s with
        heap := s.heap ++ [⟨kind, some q, "", [], [], [], []⟩]
        topLevel := { s.topLevel with cur := some s.heap.length } } := by
  unfold Stateful.newState at h
  split at h
  · rename_i q s1 hp
    have := parent_ok hp
    subst this
    injection h with h1 h2
    exact ⟨h1.symm, q, h2.symm⟩
  · exact Res.noConfusion h
  · exact Res.noConfusion h

theorem newState_fuel (s : Stateful) (kind : StateKind) : s.newState kind ≠ Res.outOfFuel := by
  unfold Stateful.newState
  split
  · exact fun h => Res.noConfusion h
  · exact fun h => Res.noConfusion h
  · rename_i hp; exact absurd hp (parent_fuel s)

theorem aState_ok {s s' : Stateful} {c : Nat} (h : s.aState = Res.ok c s') :
    Step s s' ∧ s'.topLevel.cur = some c := by
  unfold Stateful.aState at h
  split at h
  · rename_i c0 hc
    injection h with h1 h2
    subst h1 h2
    exact ⟨step_refl _, hc⟩
  · rename_i hc
    obtain ⟨h1, q, h2⟩ := newState_ok h
    subst h2
    exact ⟨⟨rfl, rfl, rfl, rfl, rfl, rfl, heapMono_append _ _,
      Or.inr ⟨hc, rfl, by simp⟩⟩, by simp [h1]⟩

theorem aState_fuel (s : Stateful) : s.aState ≠ Res.outOfFuel := by
  unfold Stateful.aState
  split
  · exact fun h => Res.noConfusion h
  · exact newState_fuel s _

theorem qobject_cast_some {heap : List StateObj} {p : Option Nat} {q : Nat}
    (h : qobject_cast_QState heap p = some q) :
    p = some q ∧ ∃ o : StateObj, heap[q]? = some o ∧ o.kind = StateKind.QState := by
  unfold qobject_cast_QState at h
  split at h
  · exact Option.noConfusion h
  · rename_i i
    split at h
    · rename_i o ho
      split at h
      · rename_i hk
        injection h with h
        subst h
        exact ⟨rfl, o, ho, hk⟩
      · exact Option.noConfusion h
    · exact Option.noConfusion h

theorem state_ok {s s' : Stateful} {q : Nat} (h : s.state = Res.ok q s') :
    Step s s' ∧ s'.topLevel.cur = some q ∧ ∃ o : StateObj, s'.heap[q]? = some o := by
  unfold Stateful.state at h
  split at h
  · rename_i c s1 ha
    obtain ⟨hs, hc⟩ := aState_ok ha
    split at h
    · rename_i q' hq
      obtain ⟨h1, o, ho, _⟩ := qobject_cast_some hq
      injection h with h2 h3
      subst h2 h3
      injection h1 with h1
      subst h1
      exact ⟨hs, hc, o, ho⟩
    · exact Res.noConfusion h
  · exact Res.noConfusion h
  · exact Res.noConfusion h

theorem state_fuel (s : Stateful) : s.state ≠ Res.outOfFuel := by
  unfold Stateful.state
  split
  · split <;> exact fun h => Res.noConfusion h
  · exact fun h => Res.noConfusion h
  · rename_i hp; exact absurd hp (aState_fuel s)

/-- A second evaluation of `s.state()` returns the same state and changes nothing. -/
theorem state_again {s s' : Stateful} {q : Nat} (h : s.state = Res.ok q s') :
    s'.state = Res.ok q s' := by
  have hc := (state_ok h).2.1
  unfold Stateful.state at h ⊢
  split at h
  · rename_i c s1 ha
    have hc1 := (aState_ok ha).2
    split at h
    · rename_i q' hq
      injection h with h1 h2
      subst h2 h1
      have : s1.aState = Res.ok c s1 := by
        unfold Stateful.aState; rw [hc1]
      rw [this]
      simp only [hq]
    · exact Res.noConfusion h
  · exact Res.noConfusion h
  · exact Res.noConfusion h

theorem onState_get (s : Stateful) (q : Nat) (f : StateObj → StateObj) (o : StateObj)
    (h : s.heap[q]? = some o) : (s.onState q f).heap[q]? = some (f o) := by
  simp [Stateful.onState, List.getElem?_modify, h]

theorem makeBase_ok {op : Op} {s s' : Stateful} {u : Unit} (h : op.makeBase s = Res.ok u s') :
    Step s s' := by
  unfold Op.makeBase at h
  split at h
  · split at h
    · rename_i c s1 ha
      injection h with _ h2
      subst h2
      exact step_trans (aState_ok ha).1
        (step_onState _ _ _ (fun _ => rfl) (fun _ _ ht => ht))
    · exact Res.noConfusion h
    · exact Res.noConfusion h
  · injection h with _ h2
    subst h2
    exact step_refl _

theorem makeBase_fuel (op : Op) (s : Stateful) : op.makeBase s ≠ Res.outOfFuel := by
  unfold Op.makeBase
  split
  · split
    · exact fun h => Res.noConfusion h
    · exact fun h => Res.noConfusion h
    · rename_i hp; exact absurd hp (aState_fuel s)
  · exact fun h => Res.noConfusion h

theorem connectWrite_kind (dev : Option Nat) (data : String) (o : StateObj) :
    (connectWrite dev data o).kind = o.kind := by
  unfold connectWrite; split <;> rfl

theorem connectWrite_transitions (dev : Option Nat) (data : String) (o : StateObj) :
    (connectWrite dev data o).transitions = o.transitions := by
  unfold connectWrite; split <;> rfl

theorem makeSend_ok {data : String} {s s' : Stateful} {u : Unit}
    (h : makeSend data s = Res.ok u s') :
    Step s s' ∧ (∃ c : Nat, s'.topLevel.cur = some c) ∧ s.paramADevice ≠ none := by
  unfold makeSend at h
  split at h
  · exact Res.noConfusion h
  · split at h
    · rename_i dev0 hdev _ q s1 hq
      injection h with _ h2
      subst h2
      obtain ⟨hs, hc, _⟩ := state_ok hq
      exact ⟨step_trans hs (step_onState _ _ _ (connectWrite_kind _ _)
        (fun o t ht => by rw [connectWrite_transitions]; exact ht)), ⟨q, hc⟩,
        by rw [hdev]; exact fun h => Option.noConfusion h⟩
    · exact Res.noConfusion h
    · exact Res.noConfusion h

theorem makeSend_fuel (data : String) (s : Stateful) : makeSend data s ≠ Res.outOfFuel := by
  unfold makeSend
  split
  · exact fun h => Res.noConfusion h
  · split
    · exact fun h => Res.noConfusion h
    · exact fun h => Res.noConfusion h
    · rename_i hp; exact absurd hp (state_fuel s)

theorem makeDelay_ok {ms : Int} {dst : Option Nat} {s s' : Stateful} {u : Unit}
    (h : makeDelay ms dst s = Res.ok u s') :
    Step s s' ∧ ∃ (c : Nat) (o : StateObj), s'.topLevel.cur = some c ∧ s'.heap[c]? = some o ∧
      ∃ t ∈ o.transitions, t.target ≠ none := by
  unfold makeDelay at h
  split at h
  · exact Res.noConfusion h
  · split at h
    · rename_i dv hdv _ q s1 hq
      injection h with _ h2
      subst h2
      obtain ⟨hs, hc, o, ho⟩ := state_ok hq
      refine ⟨step_trans hs (step_onState _ _ _ (fun _ => rfl) (fun o t ht => ?_)), q, _, hc,
        onState_get s1 q _ o ho, ?_⟩
      · simp [addTimer, ht]
      · exact ⟨⟨Trigger.timeout o.timers.length, some dv⟩, by simp [addTimer], by simp⟩
    · exact Res.noConfusion h
    · exact Res.noConfusion h

theorem makeDelay_fuel (ms : Int) (dst : Option Nat) (s : Stateful) :
    makeDelay ms dst s ≠ Res.outOfFuel := by
  unfold makeDelay
  split
  · exact fun h => Res.noConfusion h
  · split
    · exact fun h => Res.noConfusion h
    · exact fun h => Res.noConfusion h
    · rename_i hp; exact absurd hp (state_fuel s)

theorem makeExpect_ok {data : String} {dst : Option Nat} {s s' : Stateful} {u : Unit}
    (h : makeExpect data dst s = Res.ok u s') :
    Step s s' ∧ ((dst ≠ none ∨ s.topLevel.next ≠ none) →
      ∃ (c : Nat) (o : StateObj), s'.topLevel.cur = some c ∧ s'.heap[c]? = some o ∧
        ∃ t ∈ o.transitions, t.target ≠ none) ∧ s.paramADevice ≠ none := by
  unfold makeExpect at h
  split at h
  · exact Res.noConfusion h
  · split at h
    · rename_i dev0 hdev _ q s1 hq
      injection h with _ h2
      subst h2
      obtain ⟨hs, hc, o, ho⟩ := state_ok hq
      refine ⟨step_trans hs (step_onState _ _ _ (fun _ => rfl) (fun o t ht => ?_)),
        fun hd => ⟨q, _, hc, onState_get s1 q _ o ho,
          ⟨Trigger.readyRead dev0 data, if dst.isNone then s.next else dst⟩, ?_, ?_⟩,
        by rw [hdev]; exact fun h => Option.noConfusion h⟩
      · simp [addGuardedTransition, ht]
      · simp [addGuardedTransition]
      · cases dst with
        | some d => simp
        | none =>
          rcases hd with hd | hd
          · exact absurd rfl hd
          · simpa [Stateful.next] using hd
    · exact Res.noConfusion h
    · exact Res.noConfusion h

theorem makeExpect_fuel (data : String) (dst : Option Nat) (s : Stateful) :
    makeExpect data dst s ≠ Res.outOfFuel := by
  unfold makeExpect
  split
  · exact fun h => Res.noConfusion h
  · split
    · exact fun h => Res.noConfusion h
    · exact fun h => Res.noConfusion h
    · rename_i hp; exact absurd hp (state_fuel s)

theorem makeOk_of_step {op : Op} {s s' : Stateful}
    (hs : Step { s with made := s.made ++ [op] } s') (hn : op.data ≠ OpData.final)
    (hc : ∃ c : Nat, s'.topLevel.cur = some c)
    (hw : op.isSend = false → (op.lacksDst = false ∨ s.topLevel.next ≠ none) →
      ∃ (c : Nat) (o : StateObj), s'.topLevel.cur = some c ∧
        s'.heap[c]? = some o ∧ ∃ t ∈ o.transitions, t.target ≠ none)
    (hd : op.isSend = true ∨ op.isExpect = true → s.paramADevice ≠ none) :
    MakeOk op s s' := by
  refine ⟨hs.ops, hs.params, hs.parentLevel, hs.next, hs.failure, hs.made, hs.mono, ?_,
    fun h => absurd h hn, fun h _ hx => hw h hx, hd⟩
  obtain ⟨c, hc⟩ := hc
  refine ⟨c, hc, ?_⟩
  rcases hs.cur with ⟨h1, h2⟩ | ⟨h1, h2, h3⟩
  · exact Or.inl ⟨by rw [← h1]; exact hc, h2, hn⟩
  · refine Or.inr ⟨?_, h3, Or.inl h1⟩
    rw [hc] at h2
    injection h2

theorem make_ok {op : Op} {s s' : Stateful} {u : Unit} (h : op.make s = Res.ok u s') :
    MakeOk op s s' := by
  unfold Op.make at h
  simp only at h
  split at h
  · rename_i hd
    split at h
    · rename_i c s1 hn
      obtain ⟨_, q, hq⟩ := newState_ok hn
      have hb := makeBase_ok h
      subst hq
      have hcur : s'.topLevel.cur = some s.heap.length ∧ s'.heap.length = s.heap.length + 1 := by
        rcases hb.cur with ⟨h1, h2⟩ | ⟨h1, _, _⟩
        · exact ⟨h1, by simpa using h2⟩
        · exact Option.noConfusion h1
      refine ⟨hb.ops, hb.params, hb.parentLevel, hb.next, hb.failure, hb.made,
        heapMono_trans (heapMono_append _ _) hb.mono, ⟨_, hcur.1, Or.inr ⟨rfl, hcur.2, Or.inr hd⟩⟩,
        fun _ => ?_, fun _ hn _ => absurd hd hn, fun hse => ?_⟩
      rotate_left
      · simp [Op.isSend, Op.isExpect, hd] at hse
      obtain ⟨o', ho', hk, _⟩ := hb.mono s.heap.length ⟨StateKind.QFinalState, some q, "", [], [], [], []⟩
        (by simp)
      exact ⟨o', ho', hk⟩
    · exact Res.noConfusion h
    · exact Res.noConfusion h
  · rename_i d hd
    split at h
    · rename_i u1 s1 hb
      obtain ⟨h1, h2, h3⟩ := makeSend_ok h
      exact makeOk_of_step (step_trans (makeBase_ok hb) h1) (by rw [hd]; exact fun h => OpData.noConfusion h) h2
        (fun hs _ => by simp [Op.isSend, hd] at hs)
        (fun _ => by
          have := (makeBase_ok hb).params
          simpa [Stateful.paramADevice, Stateful.param, this] using h3)
    · exact Res.noConfusion h
    · exact Res.noConfusion h
  · rename_i d dst hd
    split at h
    · rename_i u1 s1 hb
      obtain ⟨h1, c, o, h2, h3⟩ := makeDelay_ok h
      exact makeOk_of_step (step_trans (makeBase_ok hb) h1) (by rw [hd]; exact fun h => OpData.noConfusion h)
        ⟨c, h2⟩ (fun _ _ => ⟨c, o, h2, h3⟩)
        (fun hse => by simp [Op.isSend, Op.isExpect, hd] at hse)
    · exact Res.noConfusion h
    · exact Res.noConfusion h
  · rename_i d dst t td hd
    split at h
    · rename_i u1 s1 hb
      obtain ⟨h1, hx, h4⟩ := makeExpect_ok h
      have hcur : ∃ c : Nat, s'.topLevel.cur = some c := by
        unfold makeExpect at h
        split at h
        · exact Res.noConfusion h
        · split at h
          · rename_i q s2 hq
            injection h with _ h2
            subst h2
            exact ⟨q, (state_ok hq).2.1⟩
          · exact Res.noConfusion h
          · exact Res.noConfusion h
      have hnext : s1.topLevel.next = s.topLevel.next := (makeBase_ok hb).next
      exact makeOk_of_step (step_trans (makeBase_ok hb) h1) (by rw [hd]; exact fun h => OpData.noConfusion h)
        hcur
        (fun _ hl => hx (by
          rcases hl with hl | hl
          · left
            intro e
            rw [e] at hd
            simp [Op.lacksDst, hd] at hl
          · right
            rw [hnext]; exact hl))
        (fun _ => by
          have := (makeBase_ok hb).params
          simpa [Stateful.paramADevice, Stateful.param, this] using h4)
    · exact Res.noConfusion h
    · exact Res.noConfusion h

theorem make_fuel (op : Op) (s : Stateful) : op.make s ≠ Res.outOfFuel := by
  unfold Op.make
  simp only
  split
  · split
    · exact makeBase_fuel _ _
    · exact fun h => Res.noConfusion h
    · rename_i hp; exact absurd hp (newState_fuel _ _)
  · split
    · exact makeSend_fuel _ _
    · exact fun h => Res.noConfusion h
    · rename_i hp; exact absurd hp (makeBase_fuel _ _)
  · split
    · exact makeDelay_fuel _ _ _
    · exact fun h => Res.noConfusion h
    · rename_i hp; exact absurd hp (makeBase_fuel _ _)
  · split
    · exact makeExpect_fuel _ _ _
    · exact fun h => Res.noConfusion h
    · rename_i hp; exact absurd hp (makeBase_fuel _ _)

/-! ### The loops of flush -/

theorem paramADevice_congr {s s' : Stateful} (h : s'.m_params = s.m_params) :
    s'.paramADevice = s.paramADevice := by
  unfold Stateful.paramADevice Stateful.param
  rw [h]

theorem exit_mono {o o' : StateObj}
    (h : ∀ t ∈ o.transitions, t ∈ o'.transitions)
    (hne : ∃ t ∈ o.transitions, t.target ≠ none) :
    ∃ t ∈ o'.transitions, t.target ≠ none := by
  obtain ⟨t, ht, htt⟩ := hne
  exact ⟨t, h t ht, htt⟩

theorem popMake_ok : ∀ (n : Nat) (s s' : Stateful) (u : Unit),
    popMake n s = Res.ok u s' → PopOk n s s' := by
  intro n
  induction n with
  | zero =>
    intro s s' u h
    unfold popMake at h
    injection h with _ h2
    subst h2
    exact ⟨by simp, rfl, rfl, rfl, rfl, by simp, heapMono_refl _, by simp,
      fun c hc => Or.inl ⟨hc, rfl, by simp, by simp⟩⟩
  | succ n ih =>
    intro s s' u h
    unfold popMake at h
    split at h
    · exact Res.noConfusion h
    · rename_i op rest hm
      split at h
      · rename_i u1 s1 hmk
        have mk := make_ok hmk
        have p := ih s1 s' u h
        have e1 : s1.m_ops = rest := mk.ops
        have e2 : s1.m_params = s.m_params := mk.params
        have e3 : s1.made = s.made ++ [op] := mk.made
        have e4 : HeapMono s.heap s1.heap := mk.mono
        have e5 : s1.topLevel.next = s.topLevel.next := mk.next
        refine ⟨?_, p.params.trans e2, p.parentLevel.trans mk.parentLevel,
          p.next.trans mk.next, p.failure.trans mk.failure, ?_, heapMono_trans e4 p.mono, ?_, ?_⟩
        · rw [p.ops, e1, hm]; simp
        · rw [p.made, e1, e3, hm]; simp
        · rintro ⟨op', hop', hP⟩
          rw [hm, List.take_succ_cons] at hop'
          rcases List.mem_cons.1 hop' with hop' | hop'
          · subst hop'
            exact mk.dev hP
          · have := p.dev ⟨op', by rw [e1]; exact hop', hP⟩
            rwa [paramADevice_congr e2] at this
        · intro c hc
          obtain ⟨c1, hc1, hcase⟩ := mk.cur
          rcases hcase with ⟨hA, hlen, hnf⟩ | ⟨hB, hlen, _⟩
          · have hcc : c1 = c := by
              have : some c1 = some c := hA.symm.trans hc
              injection this
            subst hcc
            have hlen' : s1.heap.length = s.heap.length := hlen
            rcases p.cur c1 hc1 with ⟨q1, q2, q3, q4⟩ | ⟨c', q1, q2⟩
            · refine Or.inl ⟨q1, q2.trans hlen', ?_, ?_⟩
              · intro op' hop'
                rw [hm, List.take_succ_cons] at hop'
                rcases List.mem_cons.1 hop' with hop' | hop'
                · subst hop'; exact hnf
                · exact q3 op' (by rw [e1]; exact hop')
              · rintro ⟨op', hop', hP, hD⟩
                rw [hm, List.take_succ_cons] at hop'
                rcases List.mem_cons.1 hop' with hop' | hop'
                · subst hop'
                  obtain ⟨c2, o, w1, w2, w3⟩ := mk.waits hP hnf hD
                  have hcc : c2 = c1 := by
                    have : some c2 = some c1 := w1.symm.trans hc1
                    injection this
                  subst hcc
                  obtain ⟨o', g1, _, g3⟩ := p.mono c2 o w2
                  exact ⟨o', g1, exit_mono g3 w3⟩
                · exact q4 ⟨op', by rw [e1]; exact hop', hP, by rw [e5]; exact hD⟩
            · exact Or.inr ⟨c', q1, by omega⟩
          · have hlen' : s1.heap.length = s.heap.length + 1 := hlen
            have hB' : c1 = s.heap.length := hB
            rcases p.cur c1 hc1 with ⟨q1, _, _, _⟩ | ⟨c', q1, q2⟩
            · exact Or.inr ⟨c1, q1, by omega⟩
            · exact Or.inr ⟨c', q1, by omega⟩
      · exact Res.noConfusion h
      · exact Res.noConfusion h

theorem popMake_fuel : ∀ (n : Nat) (s : Stateful), popMake n s ≠ Res.outOfFuel := by
  intro n
  induction n with
  | zero => intro s; unfold popMake; exact fun h => Res.noConfusion h
  | succ n ih =>
    intro s
    unfold popMake
    split
    · exact fun h => Res.noConfusion h
    · split
      · exact ih _
      · exact fun h => Res.noConfusion h
      · rename_i hp; exact absurd hp (make_fuel _ _)

theorem mem_take_succ {ops : List Op} {n : Nat} {it op : Op} (hit : ops[n]? = some it)
    (h : op ∈ ops.take (n + 1)) : op ∈ ops.take n ∨ op = it := by
  rw [List.take_succ, hit] at h
  simpa using h

theorem flushGroup_ok {s s' : Stateful} {u : Unit} (h : flushGroup s = Res.ok u s') :
    GroupOk s s' := by
  unfold flushGroup at h
  simp only at h
  split at h
  · exact Res.noConfusion h
  · rename_i it hit
    split at h
    · rename_i u1 s1 hmk
      split at h
      · rename_i u2 s2 hpm
        split at h
        · rename_i c s4 ha
          split at h
          · rename_i hsucc
            injection h with _ h2
            subst h2
            have mk := make_ok hmk
            have p := popMake_ok _ _ _ _ hpm
            obtain ⟨st, hc4⟩ := aState_ok ha
            -- the state the head operation created
            obtain ⟨c1, hc1, hcase⟩ := mk.cur
            have hL : c1 = s.heap.length ∧ s1.heap.length = s.heap.length + 1 := by
              rcases hcase with ⟨hA, _, _⟩ | ⟨hB, hlen, _⟩
              · exact Option.noConfusion hA
              · exact ⟨hB, hlen⟩
            have hcL : c = s.heap.length := by
              have : some c1 = some c := hc1.symm.trans hsucc
              injection this with this
              rw [← this]; exact hL.1
            obtain ⟨hc1L, hlen1⟩ := hL
            subst hc1L
            -- the assertion excludes a state created later in the group
            have hst3 : s4.topLevel.cur = s2.topLevel.cur ∧ s4.heap.length = s2.heap.length := by
              rcases st.cur with hx | ⟨hn, hy, _⟩
              · exact hx
              · have e : s2.topLevel.cur = none := hn
                rcases p.cur _ hc1 with ⟨q1, _⟩ | ⟨c', q1, _⟩
                · rw [q1] at e; exact Option.noConfusion e
                · rw [q1] at e; exact Option.noConfusion e
            have hnorm : s2.topLevel.cur = some s.heap.length ∧ s2.heap.length = s1.heap.length ∧
                (∀ op ∈ s1.m_ops.take (scanN s.m_ops), op.data ≠ OpData.final) ∧
                ((∃ op ∈ s1.m_ops.take (scanN s.m_ops), op.isSend = false ∧
                    (op.lacksDst = false ∨ s1.topLevel.next ≠ none)) →
                  ∃ o : StateObj, s2.heap[s.heap.length]? = some o ∧
                    ∃ t ∈ o.transitions, t.target ≠ none) := by
              rcases p.cur _ hc1 with hx | ⟨c', q1, q2⟩
              · exact hx
              · exfalso
                have e : some c' = some c := by rw [← q1, ← hst3.1]; exact hc4
                injection e with e
                omega
            have e1 : s1.m_ops = s.m_ops := mk.ops
            have m14 : HeapMono s1.heap s4.heap := heapMono_trans p.mono st.mono
            have hpar : s1.m_params = s.m_params := mk.params
            have hnx : s1.topLevel.next = s.topLevel.next := mk.next
            refine ⟨?_, ?_, ?_, ?_, ⟨it, hit, ?_⟩, ?_, ?_, ?_, ?_, ?_, ?_⟩
            · show s4.m_ops = _
              rw [st.ops]
              show s2.m_ops.tail = _
              rw [p.ops, e1, List.tail_drop]
            · show s4.m_params = _
              rw [st.params]
              exact p.params.trans hpar
            · show s4.parentLevel = _
              rw [st.parentLevel]
              exact p.parentLevel.trans mk.parentLevel
            · show s4.topLevel.failure = _
              rw [st.failure]
              exact p.failure.trans mk.failure
            · show s4.made = _
              rw [st.made]
              show s2.made = _
              rw [p.made, e1]
              have : s1.made = s.made ++ [it] := mk.made
              rw [this]; simp
            · exact heapMono_trans (show HeapMono s.heap s1.heap from mk.mono) m14
            · show s4.heap.length = _
              rw [hst3.2, hnorm.2.1, hlen1]
            · show s4.topLevel.cur = _
              rw [hc4, hcL]
            · show s4.topLevel.cur = _
              rw [hc4, hcL]
            · rintro ⟨op, hop, hP⟩
              rcases mem_take_succ hit hop with hop | hop
              · have := p.dev ⟨op, by rw [e1]; exact hop, hP⟩
                rwa [paramADevice_congr hpar] at this
              · subst hop; exact mk.dev hP
            · rintro ⟨op, hop, hP, hD⟩
              show ∃ o : StateObj, s4.heap[s.heap.length]? = some o ∧ _
              rcases mem_take_succ hit hop with hop | hop
              · obtain ⟨o, w1, w2⟩ :=
                  hnorm.2.2.2 ⟨op, by rw [e1]; exact hop, hP, by rw [hnx]; exact hD⟩
                obtain ⟨o', g1, _, g3⟩ := st.mono _ o w1
                exact ⟨o', g1, Or.inr (exit_mono g3 w2)⟩
              · subst hop
                by_cases hf : op.data = OpData.final
                · obtain ⟨o, w1, w2⟩ := mk.final hf
                  obtain ⟨o', g1, g2, _⟩ := m14 _ o w1
                  exact ⟨o', g1, Or.inl (g2.trans w2)⟩
                · obtain ⟨c2, o, w1, w2, w3⟩ := mk.waits hP hf hD
                  have hcc : c2 = s.heap.length := by
                    have : some c2 = some s.heap.length := w1.symm.trans hc1
                    injection this
                  subst hcc
                  obtain ⟨o', g1, _, g3⟩ := m14 _ o w2
                  exact ⟨o', g1, Or.inr (exit_mono g3 w3)⟩
          · exact Res.noConfusion h
        · exact Res.noConfusion h
        · exact Res.noConfusion h
      · exact Res.noConfusion h
      · exact Res.noConfusion h
    · exact Res.noConfusion h
    · exact Res.noConfusion h

theorem flushGroup_fuel (s : Stateful) : flushGroup s ≠ Res.outOfFuel := by
  unfold flushGroup
  simp only
  split
  · exact fun h => Res.noConfusion h
  · split
    · split
      · split
        · split <;> exact fun h => Res.noConfusion h
        · exact fun h => Res.noConfusion h
        · rename_i hp; exact absurd hp (aState_fuel _)
      · exact fun h => Res.noConfusion h
      · rename_i hp; exact absurd hp (popMake_fuel _ _)
    · exact fun h => Res.noConfusion h
    · rename_i hp; exact absurd hp (make_fuel _ _)

theorem scanN_lt : ∀ (ops : List Op), ops ≠ [] → scanN ops < ops.length := by
  intro ops
  induction ops with
  | nil => intro h; exact absurd rfl h
  | cons op rest ih =>
    intro _
    cases rest with
    | nil => simp [scanN]
    | cons b r =>
      unfold scanN
      split
      · simp
      · have := ih (by simp)
        simp only [List.length_cons] at this ⊢
        omega

theorem scanN_append (tail : List Op) (H : Op) (rest : List Op)
    (htail : ∀ op ∈ tail, op.isNew = false) (hH : H.isNew = true ∨ rest = []) :
    scanN (tail ++ H :: rest) = tail.length := by
  induction tail with
  | nil =>
    cases rest with
    | nil => simp [scanN]
    | cons b r =>
      rcases hH with hH | hH
      · simp [scanN, hH]
      · exact List.noConfusion hH
  | cons a t ih =>
    have ha : a.isNew = false := htail a (by simp)
    have iht := ih (fun op hop => htail op (by simp [hop]))
    cases t with
    | nil =>
      simp only [List.cons_append, List.nil_append, List.length_cons, List.length_nil]
      simp only [List.nil_append] at iht
      unfold scanN
      simp [ha, iht]
    | cons b r =>
      simp only [List.cons_append, List.length_cons] at iht ⊢
      unfold scanN
      simp [ha, iht]

theorem groupsFrom_scan : ∀ (ops acc : List Op), ops ≠ [] →
    groupsFrom acc ops
      = (acc ++ ops.take (scanN ops + 1)) :: groupsFrom [] (ops.drop (scanN ops + 1)) := by
  intro ops
  induction ops with
  | nil => intro _ h; exact absurd rfl h
  | cons op rest ih =>
    intro acc _
    cases rest with
    | nil =>
      by_cases hn : op.isNew = true <;> simp [groupsFrom, scanN, hn]
    | cons b r =>
      by_cases hn : op.isNew = true
      · simp [groupsFrom, scanN, hn]
      · have := ih (acc ++ [op]) (by simp)
        rw [groupsFrom, if_neg hn, this]
        simp [scanN, hn]

theorem flushLoop_fuel : ∀ (fuel : Nat) (s : Stateful), s.m_ops.length ≤ fuel →
    flushLoop fuel s ≠ Res.outOfFuel := by
  intro fuel
  induction fuel with
  | zero =>
    intro s h
    have : s.m_ops = [] := List.eq_nil_of_length_eq_zero (Nat.le_zero.1 h)
    simp [flushLoop, this]
  | succ n ih =>
    intro s h
    unfold flushLoop
    split
    · exact fun h => Res.noConfusion h
    · split
      · rename_i u s1 hg
        have g := flushGroup_ok hg
        apply ih
        rw [g.ops, List.length_drop]
        omega
      · exact fun h => Res.noConfusion h
      · rename_i hp; exact absurd hp (flushGroup_fuel _)

/-- The method `flush` returns or aborts; the iteration bound is never hit. -/
theorem flush_fuel (s : Stateful) : s.flush ≠ Res.outOfFuel :=
  flushLoop_fuel _ s le_rfl

theorem flushLoop_ok_ops : ∀ (fuel : Nat) (s s' : Stateful) (u : Unit),
    flushLoop fuel s = Res.ok u s' → s'.m_ops = [] := by
  intro fuel
  induction fuel with
  | zero =>
    intro s s' u h
    unfold flushLoop at h
    split at h
    · rename_i he
      injection h with _ h2
      subst h2
      exact List.isEmpty_iff.1 he
    · exact Res.noConfusion h
  | succ n ih =>
    intro s s' u h
    unfold flushLoop at h
    split at h
    · rename_i he
      injection h with _ h2
      subst h2
      exact List.isEmpty_iff.1 he
    · split at h
      · exact ih _ _ _ h
      · exact Res.noConfusion h
      · exact Res.noConfusion h

theorem flushLoop_dev : ∀ (fuel : Nat) (s s' : Stateful) (u : Unit),
    flushLoop fuel s = Res.ok u s' →
    (∃ op ∈ s.m_ops, op.isSend = true ∨ op.isExpect = true) → s.paramADevice ≠ none := by
  intro fuel
  induction fuel with
  | zero =>
    intro s s' u h hop
    unfold flushLoop at h
    split at h
    · rename_i he
      obtain ⟨op, hop, _⟩ := hop
      rw [List.isEmpty_iff.1 he] at hop
      exact absurd hop (List.not_mem_nil _)
    · exact Res.noConfusion h
  | succ n ih =>
    intro s s' u h hop
    unfold flushLoop at h
    split at h
    · rename_i he
      obtain ⟨op, hop, _⟩ := hop
      rw [List.isEmpty_iff.1 he] at hop
      exact absurd hop (List.not_mem_nil _)
    · split at h
      · rename_i u1 s1 hg
        have g := flushGroup_ok hg
        obtain ⟨op, hop, hP⟩ := hop
        rw [← List.take_append_drop (scanN s.m_ops + 1) s.m_ops] at hop
        rcases List.mem_append.1 hop with hop | hop
        · exact g.dev ⟨op, hop, hP⟩
        · have := ih _ _ _ h ⟨op, by rw [g.ops]; exact hop, hP⟩
          rwa [paramADevice_congr g.params] at this
      · exact Res.noConfusion h
      · exact Res.noConfusion h

theorem flushLoop_wired : ∀ (fuel : Nat) (s s' : Stateful) (u : Unit),
    flushLoop fuel s = Res.ok u s' →
    (∀ g ∈ groups s.m_ops, ∃ op ∈ g, op.isSend = false) →
    (s.topLevel.next = none →
      ∀ g, (groups s.m_ops).head? = some g → ∀ op ∈ g, op.lacksDst = false) →
    HeapMono s.heap s'.heap ∧
      ∀ (i : Nat) (o : StateObj), s.heap.length ≤ i → s'.heap[i]? = some o →
        o.kind = StateKind.QState → ∃ t ∈ o.transitions, t.target ≠ none := by
  intro fuel
  induction fuel with
  | zero =>
    intro s s' u h _ _
    unfold flushLoop at h
    split at h
    · injection h with _ h2
      subst h2
      refine ⟨heapMono_refl _, fun i o hi ho _ => ?_⟩
      rw [List.getElem?_eq_none hi] at ho
      exact Option.noConfusion ho
    · exact Res.noConfusion h
  | succ n ih =>
    intro s s' u h hg hb
    unfold flushLoop at h
    split at h
    · injection h with _ h2
      subst h2
      refine ⟨heapMono_refl _, fun i o hi ho _ => ?_⟩
      rw [List.getElem?_eq_none hi] at ho
      exact Option.noConfusion ho
    · rename_i hne
      split at h
      · rename_i u1 s1 hfg
        have g := flushGroup_ok hfg
        have hne' : s.m_ops ≠ [] := fun e => hne (by simp [e])
        have hgr : groups s.m_ops = s.m_ops.take (scanN s.m_ops + 1) :: groups s1.m_ops := by
          unfold groups
          rw [groupsFrom_scan _ _ hne', g.ops]
          simp
        rw [hgr] at hg hb
        have hnext1 : s1.topLevel.next ≠ none := by
          rw [g.next]; exact fun e => Option.noConfusion e
        obtain ⟨m1, good⟩ := ih _ _ _ h (fun gr hgr => hg gr (List.mem_cons_of_mem _ hgr))
          (fun e => absurd e hnext1)
        refine ⟨heapMono_trans g.mono m1, fun i o hi ho hk => ?_⟩
        by_cases hiL : i = s.heap.length
        · subst hiL
          obtain ⟨op, hop, hP⟩ := hg _ (List.mem_cons_self _ _)
          have hD : op.lacksDst = false ∨ s.topLevel.next ≠ none := by
            by_cases hn : s.topLevel.next = none
            · exact Or.inl (hb hn _ rfl op hop)
            · exact Or.inr hn
          obtain ⟨o1, w1, w2⟩ := g.wired ⟨op, hop, hP, hD⟩
          obtain ⟨o', g1, g2, g3⟩ := m1 _ o1 w1
          have : o' = o := by
            rw [g1] at ho
            injection ho
          subst this
          rcases w2 with w2 | w2
          · rw [g2, w2] at hk
            exact StateKind.noConfusion hk
          · exact exit_mono g3 w2
        · exact good i o (by rw [g.len]; omega) ho hk
      · exact Res.noConfusion h
      · exact Res.noConfusion h

theorem make_no_device (op : Op) (s : Stateful)
    (hP : op.isSend = true ∨ op.isExpect = true) (hname : op.m_name = "")
    (hdev : s.paramADevice = none) :
    op.make s = Res.fatal "ASSERT: \"p\"" { s with made := s.made ++ [op] } := by
  have hdev' : Stateful.paramADevice { s with made := s.made ++ [op] } = none := hdev
  unfold Op.make
  cases hd : op.data with
  | final => simp [Op.isSend, Op.isExpect, hd] at hP
  | send d => simp [Op.makeBase, hname, makeSend, hdev']
  | delay d dst => simp [Op.isSend, Op.isExpect, hd] at hP
  | expect d dst t td => simp [Op.makeBase, hname, makeExpect, hdev']

theorem flushGroup_no_device (s : Stateful) (it : Op) (hit : s.m_ops[scanN s.m_ops]? = some it)
    (hP : it.isSend = true ∨ it.isExpect = true) (hname : it.m_name = "")
    (hdev : s.paramADevice = none) :
    flushGroup s = Res.fatal "ASSERT: \"p\""
      { s with topLevel := { s.topLevel with cur := none }, made := s.made ++ [it] } := by
  have hm := make_no_device it { s with topLevel := { s.topLevel with cur := none } } hP hname hdev
  unfold flushGroup
  simp only [hit]
  rw [hm]

theorem flushLoop_no_device (fuel : Nat) (s : Stateful) (hf : s.m_ops.length ≤ fuel)
    (hdev : s.paramADevice = none)
    (hop : ∃ op ∈ s.m_ops, op.isSend = true ∨ op.isExpect = true) :
    ∃ (msg : String) (s' : Stateful), flushLoop fuel s = Res.fatal msg s' := by
  cases hr : flushLoop fuel s with
  | ok u s' => exact absurd hdev (flushLoop_dev fuel s s' u hr hop)
  | fatal msg s' => exact ⟨msg, s', rfl⟩
  | outOfFuel => exact absurd hr (flushLoop_fuel fuel s hf)

/-! ### The record of make calls, on every outcome -/

theorem parent_fatal {s e : Stateful} {msg : String} (h : s.parent = Res.fatal msg e) :
    e = s := by
  unfold Stateful.parent at h
  split at h
  · exact Res.noConfusion h
  · injection h with _ h2; exact h2.symm

theorem newState_fatal {s e : Stateful} {kind : StateKind} {msg : String}
    (h : s.newState kind = Res.fatal msg e) : e = s := by
  unfold Stateful.newState at h
  split at h
  · exact Res.noConfusion h
  · rename_i m s1 hp
    injection h with _ h2
    rw [← h2]; exact parent_fatal hp
  · exact Res.noConfusion h

theorem aState_fatal {s e : Stateful} {msg : String} (h : s.aState = Res.fatal msg e) :
    e = s := by
  unfold Stateful.aState at h
  split at h
  · exact Res.noConfusion h
  · exact newState_fatal h

theorem state_fatal {s e : Stateful} {msg : String} (h : s.state = Res.fatal msg e) :
    e.made = s.made := by
  unfold Stateful.state at h
  split at h
  · rename_i c s1 ha
    split at h
    · exact Res.noConfusion h
    · injection h with _ h2
      rw [← h2]; exact (aState_ok ha).1.made
  · rename_i m s1 ha
    injection h with _ h2
    rw [← h2, aState_fatal ha]
  · exact Res.noConfusion h

theorem makeBase_fatal {op : Op} {s e : Stateful} {msg : String}
    (h : op.makeBase s = Res.fatal msg e) : e.made = s.made := by
  unfold Op.makeBase at h
  split at h
  · split at h
    · exact Res.noConfusion h
    · rename_i m s1 ha
      injection h with _ h2
      rw [← h2, aState_fatal ha]
    · exact Res.noConfusion h
  · exact Res.noConfusion h

theorem makeSend_fatal {data : String} {s e : Stateful} {msg : String}
    (h : makeSend data s = Res.fatal msg e) : e.made = s.made := by
  unfold makeSend at h
  split at h
  · injection h with _ h2; rw [← h2]
  · split at h
    · exact Res.noConfusion h
    · rename_i m s1 hs
      injection h with _ h2
      rw [← h2]; exact state_fatal hs
    · exact Res.noConfusion h

theorem makeDelay_fatal {ms : Int} {dst : Option Nat} {s e : Stateful} {msg : String}
    (h : makeDelay ms dst s = Res.fatal msg e) : e.made = s.made := by
  unfold makeDelay at h
  split at h
  · injection h with _ h2; rw [← h2]
  · split at h
    · exact Res.noConfusion h
    · rename_i m s1 hs
      injection h with _ h2
      rw [← h2]; exact state_fatal hs
    · exact Res.noConfusion h

theorem makeExpect_fatal {data : String} {dst : Option Nat} {s e : Stateful} {msg : String}
    (h : makeExpect data dst s = Res.fatal msg e) : e.made = s.made := by
  unfold makeExpect at h
  split at h
  · injection h with _ h2; rw [← h2]
  · split at h
    · exact Res.noConfusion h
    · rename_i m s1 hs
      injection h with _ h2
      rw [← h2]; exact state_fatal hs
    · exact Res.noConfusion h

theorem make_fatal {op : Op} {s e : Stateful} {msg : String}
    (h : op.make s = Res.fatal msg e) : e.made = s.made ++ [op] := by
  unfold Op.make at h
  simp only at h
  split at h
  · split at h
    · rename_i c s1 hn
      obtain ⟨_, q, hq⟩ := newState_ok hn
      rw [makeBase_fatal h, hq]
    · rename_i m s1 hn
      injection h with _ h2
      rw [← h2, newState_fatal hn]
    · exact Res.noConfusion h
  · split at h
    · rename_i u1 s1 hb
      rw [makeSend_fatal h, (makeBase_ok hb).made]
    · rename_i m s1 hb
      injection h with _ h2
      rw [← h2, makeBase_fatal hb]
    · exact Res.noConfusion h
  · split at h
    · rename_i u1 s1 hb
      rw [makeDelay_fatal h, (makeBase_ok hb).made]
    · rename_i m s1 hb
      injection h with _ h2
      rw [← h2, makeBase_fatal hb]
    · exact Res.noConfusion h
  · split at h
    · rename_i u1 s1 hb
      rw [makeExpect_fatal h, (makeBase_ok hb).made]
    · rename_i m s1 hb
      injection h with _ h2
      rw [← h2, makeBase_fatal hb]
    · exact Res.noConfusion h

theorem popMake_fatal : ∀ (n : Nat) (s e : Stateful) (msg : String),
    popMake n s = Res.fatal msg e → ∃ k : Nat, k ≤ n ∧ e.made = s.made ++ s.m_ops.take k := by
  intro n
  induction n with
  | zero =>
    intro s e msg h
    unfold popMake at h
    exact Res.noConfusion h
  | succ n ih =>
    intro s e msg h
    unfold popMake at h
    split at h
    · injection h with _ h2
      exact ⟨0, Nat.zero_le _, by rw [← h2]; simp⟩
    · rename_i op rest hm
      split at h
      · rename_i u1 s1 hmk
        have mk := make_ok hmk
        obtain ⟨k, hk, he⟩ := ih _ _ _ h
        have e1 : s1.m_ops = rest := mk.ops
        have e3 : s1.made = s.made ++ [op] := mk.made
        exact ⟨k + 1, by omega, by rw [he, e1, e3, hm]; simp⟩
      · rename_i m s1 hmk
        injection h with _ h2
        have := make_fatal hmk
        exact ⟨1, by omega, by rw [← h2, this, hm]; simp⟩
      · exact Res.noConfusion h

theorem flushGroup_fatal {s e : Stateful} {msg : String} {it : Op}
    (hit : s.m_ops[scanN s.m_ops]? = some it) (h : flushGroup s = Res.fatal msg e) :
    ∃ k : Nat, e.made = s.made ++ (it :: s.m_ops.take (scanN s.m_ops)).take k := by
  unfold flushGroup at h
  simp only [hit] at h
  split at h
  · rename_i u1 s1 hmk
    have mk := make_ok hmk
    have e1 : s1.m_ops = s.m_ops := mk.ops
    have e3 : s1.made = s.made ++ [it] := mk.made
    split at h
    · rename_i u2 s2 hpm
      have p := popMake_ok _ _ _ _ hpm
      have hall : ∀ e4 : Stateful, e4.made = s2.made →
          ∃ k : Nat, e4.made = s.made ++ (it :: s.m_ops.take (scanN s.m_ops)).take k := by
        intro e4 he4
        refine ⟨(scanN s.m_ops) + 1, ?_⟩
        rw [he4, p.made, e1, e3]
        simp [List.take_take]
      split at h
      · rename_i c s4 ha
        split at h
        · exact Res.noConfusion h
        · injection h with _ h2
          rw [← h2]
          exact hall s4 (aState_ok ha).1.made
      · rename_i m s4 ha
        injection h with _ h2
        rw [← h2, aState_fatal ha]
        exact hall _ rfl
      · exact Res.noConfusion h
    · rename_i m s2 hpm
      injection h with _ h2
      obtain ⟨k, hk, he⟩ := popMake_fatal _ _ _ _ hpm
      refine ⟨k + 1, ?_⟩
      rw [← h2, he, e1, e3]
      simp [List.take_take, Nat.min_eq_left hk]
    · exact Res.noConfusion h
  · rename_i m s1 hmk
    injection h with _ h2
    refine ⟨1, ?_⟩
    rw [← h2, make_fatal hmk]
    simp
  · exact Res.noConfusion h

theorem flushLoop_final_made : ∀ (fuel : Nat) (s e : Stateful),
    (flushLoop fuel s).final = some e → ∃ later : List Op, e.made = s.made ++ later := by
  intro fuel
  induction fuel with
  | zero =>
    intro s e h
    unfold flushLoop at h
    split at h
    · simp only [Res.final, Option.some.injEq] at h
      exact ⟨[], by rw [← h]; simp⟩
    · simp [Res.final] at h
  | succ n ih =>
    intro s e h
    unfold flushLoop at h
    split at h
    · simp only [Res.final, Option.some.injEq] at h
      exact ⟨[], by rw [← h]; simp⟩
    · rename_i hne
      have hne' : s.m_ops ≠ [] := fun e => hne (by simp [e])
      have hlt := scanN_lt _ hne'
      have hit : s.m_ops[scanN s.m_ops]? = some (s.m_ops[scanN s.m_ops]) :=
        List.getElem?_eq_getElem hlt
      split at h
      · rename_i u1 s1 hg
        obtain ⟨it, _, hm⟩ := (flushGroup_ok hg).made
        obtain ⟨later, hl⟩ := ih _ _ h
        exact ⟨it :: s.m_ops.take (scanN s.m_ops) ++ later, by rw [hl, hm]; simp⟩
      · rename_i m s1 hg
        simp only [Res.final, Option.some.injEq] at h
        obtain ⟨k, hk⟩ := flushGroup_fatal hit hg
        exact ⟨_, by rw [← h]; exact hk⟩
      · simp [Res.final] at h

/-! ### The claims -/

/-- C10 (the code departs from the claim): an endpoint opened write-only, whose mode lacks the
read flag, accepts the data a peer forwards: `_a_write` appends it to the buffer and emits
`hasIncoming` and `readyRead`. Only an endpoint that is not open at all is left unchanged. -/
theorem a_write_write_only (buf data : List Char) (emitted : List Signal) :
    AppPipe._a_write ⟨WriteOnly, buf, emitted⟩ data
      = ⟨WriteOnly, buf ++ data, emitted ++ [Signal.hasIncoming data, Signal.readyRead]⟩ ∧
    AppPipe._a_write ⟨NotOpen, buf, emitted⟩ data = ⟨NotOpen, buf, emitted⟩ := by
  constructor <;> simp [AppPipe._a_write, boolToInt, WriteOnly, NotOpen, ReadOnly]

/-- C1 (the code departs from the claim): the script of the `Programmer` constructor is not
built. Its last statement before `s.flush()` calls `s("s_failed")` on the reference returned by
`Final::failure()`, and that call returns none, so the constructor does not get to `flush` and
no state named `s_failed` comes to exist. The builder as it stands before that statement holds
the other five operations; a flush of it creates `s_ok`, `s_send` and `s_boot` (objects 5 to 7)
with the two pattern transitions and nothing else: no state owns a timer and there is no
timeout transition. -/
theorem programmer_script_not_built :
    (Op.failure Final).2 = none ∧
    programmerScript = none ∧
    programmerPrefix.flush.built.map (createdStates 5) = some
      [ (5, ⟨StateKind.QFinalState, some 0, "s_ok", [], [], [], []⟩),
        (6, ⟨StateKind.QState, some 0, "s_send", [],
          [Action.write 0 "HULLOTHERE\n:00000001FF\n"], [],
          [⟨Trigger.readyRead (some 0) "load successful", some 5⟩]⟩),
        (7, ⟨StateKind.QState, some 0, "s_boot", [], [Action.write 0 "boot\n"], [],
          [⟨Trigger.readyRead (some 0) "boot successful", some 6⟩]⟩) ] ∧
    programmerPrefix.flush.built.map (fun s => allTransitions s.heap) = some
      [ (6, ⟨Trigger.readyRead (some 0) "load successful", some 5⟩),
        (7, ⟨Trigger.readyRead (some 0) "boot successful", some 6⟩) ] := by
  refine ⟨by decide, by decide, by decide, by decide⟩

/-- C2 (the code departs from the claim): flushed after a `Final` (object 5, the successor), an
`Expect` with timeout 1000 and the explicit timeout destination 4 gives its state (object 6) the
guarded pattern transition to 5 and nothing else: no timer, no timeout transition. The same
holds when the timeout destination is left to the level. The free function `expect` with such
arguments adds the single-shot timer with interval 1000 and its transition to the timeout
destination. -/
theorem expect_make_adds_no_timer :
    ((deviceBuilder.add (Expect "y" 1000 (some 4))).add Final).flush.built.map (createdStates 5)
      = some
        [ (5, ⟨StateKind.QFinalState, some 0, "", [], [], [], []⟩),
          (6, ⟨StateKind.QState, some 0, "", [], [], [],
            [⟨Trigger.readyRead (some 0) "y", some 5⟩]⟩) ] ∧
    ((deviceBuilder.add (Expect "y" 1000 none)).add Final).flush.built.map (createdStates 5)
      = some
        [ (5, ⟨StateKind.QFinalState, some 0, "", [], [], [], []⟩),
          (6, ⟨StateKind.QState, some 0, "", [], [], [],
            [⟨Trigger.readyRead (some 0) "y", some 5⟩]⟩) ] ∧
    (expect programmerHeap 1 (some 0) "y" (some 3) 1000 (some 4))[1]? = some
      ⟨StateKind.QState, some 0, "", [⟨true, 1000⟩], [Action.timerStart 0],
        [Action.timerStop 0],
        [⟨Trigger.readyRead (some 0) "y", some 3⟩, ⟨Trigger.timeout 0, some 4⟩]⟩ := by
  refine ⟨by decide, by decide, by decide⟩

/-- C4 (the code departs from the claim): flushing a single `Expect` without destination on a
builder whose `next` is unset returns normally, and the state it creates (object 5) has a
pattern transition without target. A `Delay` in the same place aborts with a fatal error and
adds no transition. -/
theorem expect_without_next_adds_transition :
    (deviceBuilder.add (Expect "x" 0 none)).flush.built.map (createdStates 5) = some
      [(5, ⟨StateKind.QState, some 0, "", [], [], [],
        [⟨Trigger.readyRead (some 0) "x", none⟩]⟩)] ∧
    (deviceBuilder.add (Delay 5 none)).flush.built = none ∧
    (deviceBuilder.add (Delay 5 none)).flush.aborted.map (fun s => allTransitions s.heap)
      = some [] := by
  refine ⟨by decide, by decide, by decide⟩

/-- C3 (counterexample): with the channel parameter set, the flush of a single `Send` returns
normally, and the state it creates (object 5) is a `QState` without any transition. -/
theorem send_group_dead_end :
    ∃ (s' : Stateful) (o : StateObj), (deviceBuilder.add (Send "x")).flush = Res.ok () s' ∧
      (deviceBuilder.add (Send "x")).heap.length ≤ 5 ∧ s'.heap[5]? = some o ∧
      o.kind = StateKind.QState ∧ o.transitions = [] ∧ o.entered = [Action.write 0 "x"] :=
  ⟨(deviceBuilder.add (Send "x")).flush.built.getD deviceBuilder,
    ⟨StateKind.QState, some 0, "", [], [Action.write 0 "x"], [], []⟩,
    by decide, by decide, by decide, by decide, by decide, by decide⟩

/-- C3 (amended): when a flush returns normally (a failed `Q_ASSERT` counting as a fatal
error), no flush group of the pending stack consists of `Send` operations alone, and the group
built first holds no `Expect` without explicit destination unless `next` is already set, every
`QState` the flush created has at least one transition with a target state. -/
theorem flush_no_dead_end (s s' : Stateful) (u : Unit) (h : s.flush = Res.ok u s')
    (hg : ∀ g ∈ groups s.m_ops, ∃ op ∈ g, op.isSend = false)
    (hb : s.topLevel.next = none →
      ∀ g, (groups s.m_ops).head? = some g → ∀ op ∈ g, op.lacksDst = false)
    (i : Nat) (o : StateObj) (hi : s.heap.length ≤ i) (ho : s'.heap[i]? = some o)
    (hk : o.kind = StateKind.QState) : ∃ t ∈ o.transitions, t.target ≠ none :=
  (flushLoop_wired _ s s' u h hg hb).2 i o hi ho hk

/-- C3 (amended), at the `Programmer` script up to `s_ok`: the state `s_send` (object 6) has
the pattern transition to `s_ok` (object 5). -/
theorem flush_no_dead_end_witness :
    programmerPrefix.flush = Res.ok () programmerBuilt ∧
    (∀ g ∈ groups programmerPrefix.m_ops, ∃ op ∈ g, op.isSend = false) ∧
    (programmerPrefix.topLevel.next = none →
      ∀ g, (groups programmerPrefix.m_ops).head? = some g → ∀ op ∈ g, op.lacksDst = false) ∧
    programmerPrefix.heap.length ≤ 6 ∧ programmerBuilt.heap[6]? = some sendState ∧
    sendState.kind = StateKind.QState ∧ ∃ t ∈ sendState.transitions, t.target ≠ none :=
  have hb : programmerPrefix.topLevel.next = none →
      ∀ g, (groups programmerPrefix.m_ops).head? = some g → ∀ op ∈ g, op.lacksDst = false := by
    intro _ g hg op hop
    have hg' : g = [(⟨9, "s_ok", OpData.final⟩ : Op)] := by
      have : (groups programmerPrefix.m_ops).head? = some [(⟨9, "s_ok", OpData.final⟩ : Op)] := by
        decide
      rw [this] at hg
      injection hg with hg
      exact hg.symm
    rw [hg'] at hop
    rw [List.mem_singleton.1 hop]
    decide
  ⟨by decide, by decide, hb, by decide, by decide, by decide,
    flush_no_dead_end programmerPrefix programmerBuilt () (by decide) (by decide) hb 6 sendState
      (by decide) (by decide) (by decide)⟩

/-- C5 (counterexample): with no parameter set, the flush of a single `Send` named "a" aborts
on the missing parameter after `Op::make` has created and named a state (object 5); and in the
flush of a `Send` followed by a `Final`, the `Final` group is built first, so its state exists
when the `Send` aborts. -/
theorem named_send_creates_state_before_abort :
    (bareBuilder.add ((Send "x").s "a")).paramADevice = none ∧
    (∃ s' : Stateful,
      (bareBuilder.add ((Send "x").s "a")).flush = Res.fatal "ASSERT: \"p\"" s' ∧
      createdStates 5 s' = [(5, ⟨StateKind.QState, some 0, "a", [], [], [], []⟩)]) ∧
    ((bareBuilder.add (Send "x")).add Final).paramADevice = none ∧
    (∃ s' : Stateful,
      ((bareBuilder.add (Send "x")).add Final).flush = Res.fatal "ASSERT: \"p\"" s' ∧
      createdStates 5 s' = [(5, ⟨StateKind.QFinalState, some 0, "", [], [], [], []⟩)]) :=
  ⟨by decide,
    ⟨(bareBuilder.add ((Send "x").s "a")).flush.aborted.getD bareBuilder, by decide, by decide⟩,
    by decide,
    ⟨((bareBuilder.add (Send "x")).add Final).flush.aborted.getD bareBuilder, by decide,
      by decide⟩⟩

/-- C5 (amended): on a builder with no channel parameter, the flush of a pending stack that
holds a `Send` or an `Expect` aborts with a fatal error; when the operation built first, the
one the scan stops at, is an unnamed `Send` or `Expect`, the state objects at the abort are
those from before the flush, so no state has been created. -/
theorem flush_without_device (s : Stateful) (hdev : s.paramADevice = none)
    (hop : ∃ op ∈ s.m_ops, op.isSend = true ∨ op.isExpect = true) :
    ∃ (msg : String) (s' : Stateful), s.flush = Res.fatal msg s' ∧
      ((∃ it : Op, s.m_ops[scanN s.m_ops]? = some it ∧
          (it.isSend = true ∨ it.isExpect = true) ∧ it.m_name = "") → s'.heap = s.heap) := by
  obtain ⟨msg, s', hf⟩ := flushLoop_no_device s.m_ops.length s le_rfl hdev hop
  refine ⟨msg, s', hf, ?_⟩
  rintro ⟨it, hit, hP, hname⟩
  have hg := flushGroup_no_device s it hit hP hname hdev
  obtain ⟨op, hmem, _⟩ := hop
  have hne : s.m_ops ≠ [] := List.ne_nil_of_mem hmem
  have hlen : s.m_ops.length = (s.m_ops.length - 1) + 1 := by
    have := List.length_pos.2 hne
    omega
  rw [hlen] at hf
  unfold flushLoop at hf
  rw [if_neg (by simpa using hne), hg] at hf
  injection hf with _ h2
  rw [← h2]

/-- C5 (amended), at a builder without parameter on which an unnamed `Send` is pending. -/
theorem flush_without_device_witness :
    (bareBuilder.add (Send "x")).paramADevice = none ∧
    (∃ op ∈ (bareBuilder.add (Send "x")).m_ops, op.isSend = true ∨ op.isExpect = true) ∧
    ∃ (msg : String) (s' : Stateful), (bareBuilder.add (Send "x")).flush = Res.fatal msg s' ∧
      ((∃ it : Op, (bareBuilder.add (Send "x")).m_ops[scanN (bareBuilder.add (Send "x")).m_ops]?
            = some it ∧ (it.isSend = true ∨ it.isExpect = true) ∧ it.m_name = "") →
        s'.heap = (bareBuilder.add (Send "x")).heap) :=
  ⟨by decide, by decide,
    flush_without_device (bareBuilder.add (Send "x")) (by decide) (by decide)⟩

/-- C8: when `flush` returns normally the pending stack is empty, and a second `flush` right
after it returns the builder as it is: no state is created, no transition is added, and
`cur`, `next` and `failure` of the levels are unchanged. -/
theorem flush_idempotent (s s' : Stateful) (u : Unit) (h : s.flush = Res.ok u s') :
    s'.m_ops = [] ∧ s'.flush = Res.ok () s' := by
  have he := flushLoop_ok_ops _ s s' u h
  exact ⟨he, by simp [Stateful.flush, he, flushLoop]⟩

/-- C8, at the `Programmer` script up to `s_ok`. -/
theorem flush_idempotent_witness :
    programmerPrefix.flush = Res.ok () programmerBuilt ∧
    programmerBuilt.m_ops = [] ∧ programmerBuilt.flush = Res.ok () programmerBuilt :=
  ⟨by decide, flush_idempotent programmerPrefix programmerBuilt () (by decide)⟩

/-- C9 (counterexample): for the group appended as H = `Send "h"` (with `+`), A = `Expect "a"`,
B = `Expect "b"`, the flush makes H, then B, then A, which is not the order H, A, B. -/
theorem group_built_in_reverse :
    ((((deviceBuilder.add (Send "h")).or (Expect "a" 0 none)).or (Expect "b" 0 none)).flush.built.map
        (fun s => s.made.map (fun op => op.data)))
      = some [OpData.send "h", OpData.expect "b" none 0 none, OpData.expect "a" none 0 none] ∧
    [OpData.send "h", OpData.expect "b" none 0 none, OpData.expect "a" none 0 none]
      ≠ [OpData.send "h", OpData.expect "a" none 0 none, OpData.expect "b" none 0 none] := by
  constructor <;> decide

/-- C9 (amended): when the pending stack is `tail ++ H :: rest` (top first), no operation of
`tail` is flagged `IsNew` and `H` is (or `H` is the bottom of the stack), `flush` ends, and its
`make` calls are, in order, `H` and then the operations of `tail` from the top of the stack
down, which is the reverse of the order in which they were appended: the calls made are a
prefix of that sequence (an operation aborted) or that sequence followed by the calls for the
groups below, and they are the latter whenever `flush` returns normally. -/
theorem flush_group_order (s : Stateful) (H : Op) (tail rest : List Op)
    (hops : s.m_ops = tail ++ H :: rest) (htail : ∀ op ∈ tail, op.isNew = false)
    (hH : H.isNew = true ∨ rest = []) :
    ∃ e : Stateful, s.flush.final = some e ∧
      ((∃ k : Nat, e.made = s.made ++ (H :: tail).take k) ∨
        (∃ later : List Op, e.made = s.made ++ H :: tail ++ later)) ∧
      (s.flush.built = some e → ∃ later : List Op, e.made = s.made ++ H :: tail ++ later) := by
  have hn : scanN s.m_ops = tail.length := by rw [hops]; exact scanN_append tail H rest htail hH
  have hlen : s.m_ops.length = (tail.length + rest.length) + 1 := by
    rw [hops]; simp; omega
  have hit : s.m_ops[scanN s.m_ops]? = some H := by
    rw [hn, hops, List.getElem?_append_right (le_refl _)]
    simp
  have htake : s.m_ops.take (scanN s.m_ops) = tail := by rw [hn, hops]; simp
  have hne : ¬ s.m_ops.isEmpty = true := by rw [hops]; simp
  have hfl : s.flush = match flushGroup s with
      | Res.ok _ s1 => flushLoop (tail.length + rest.length) s1
      | Res.fatal msg s1 => Res.fatal msg s1
      | Res.outOfFuel => Res.outOfFuel := by
    unfold Stateful.flush
    rw [hlen, flushLoop, if_neg hne]
  cases hg : flushGroup s with
  | ok u1 s1 =>
    rw [hg] at hfl
    simp only at hfl
    obtain ⟨it, hit', hm⟩ := (flushGroup_ok hg).made
    rw [hit] at hit'
    injection hit' with hit'
    subst hit'
    rw [htake] at hm
    have hex : ∃ e : Stateful, s.flush.final = some e := by
      cases hr : s.flush with
      | ok u e => exact ⟨e, rfl⟩
      | fatal m e => exact ⟨e, rfl⟩
      | outOfFuel => exact absurd hr (flush_fuel s)
    obtain ⟨e, he⟩ := hex
    have he' := he
    rw [hfl] at he'
    obtain ⟨later, hl⟩ := flushLoop_final_made _ _ _ he'
    have hres : ∃ later : List Op, e.made = s.made ++ H :: tail ++ later :=
      ⟨later, by rw [hl, hm]⟩
    exact ⟨e, he, Or.inr hres, fun _ => hres⟩
  | fatal m e =>
    rw [hg] at hfl
    simp only at hfl
    obtain ⟨k, hk⟩ := flushGroup_fatal hit hg
    rw [htake] at hk
    exact ⟨e, by rw [hfl]; rfl, Or.inl ⟨k, hk⟩, fun hb => by rw [hfl] at hb; simp [Res.built] at hb⟩
  | outOfFuel => exact absurd hg (flushGroup_fuel s)

/-- C9 (amended), at the group H = `Send "h"`, A = `Expect "a"`, B = `Expect "b"`. -/
theorem flush_group_order_witness :
    (((deviceBuilder.add (Send "h")).or (Expect "a" 0 none)).or (Expect "b" 0 none)).m_ops
      = [Expect "b" 0 none, Expect "a" 0 none] ++ ⟨8, "", OpData.send "h"⟩ :: [] ∧
    (∀ op ∈ [Expect "b" 0 none, Expect "a" 0 none], op.isNew = false) ∧
    ((⟨8, "", OpData.send "h"⟩ : Op).isNew = true ∨ ([] : List Op) = []) ∧
    ∃ e : Stateful,
      (((deviceBuilder.add (Send "h")).or (Expect "a" 0 none)).or (Expect "b" 0 none)).flush.final
        = some e ∧
      ((∃ k : Nat, e.made
          = (((deviceBuilder.add (Send "h")).or (Expect "a" 0 none)).or (Expect "b" 0 none)).made ++
            ((⟨8, "", OpData.send "h"⟩ : Op) :: [Expect "b" 0 none, Expect "a" 0 none]).take k) ∨
        (∃ later : List Op, e.made
          = (((deviceBuilder.add (Send "h")).or (Expect "a" 0 none)).or (Expect "b" 0 none)).made ++
            ⟨8, "", OpData.send "h"⟩ :: [Expect "b" 0 none, Expect "a" 0 none] ++ later)) ∧
      ((((deviceBuilder.add (Send "h")).or (Expect "a" 0 none)).or (Expect "b" 0 none)).flush.built
          = some e →
        ∃ later : List Op, e.made
          = (((deviceBuilder.add (Send "h")).or (Expect "a" 0 none)).or (Expect "b" 0 none)).made ++
            ⟨8, "", OpData.send "h"⟩ :: [Expect "b" 0 none, Expect "a" 0 none] ++ later) :=
  ⟨by decide, by decide, by decide,
    flush_group_order _ ⟨8, "", OpData.send "h"⟩ [Expect "b" 0 none, Expect "a" 0 none]
      [] (by decide) (by decide) (by decide)⟩

end CommCommands
